import Mathlib

/-!
Verification of the TrafficCamera repository's photo-capture-and-organization
workflow against its specification.

The development shallowly embeds the two relevant source files:

* `cleanup_photo_structure.py` — the archive migrator: walks a nested
  `photos/YYYY/MM/DD/*.jpg` tree, moves every `*.jpg` file into the year
  directory (resolving name collisions with a `_NNN` counter), then prunes
  empty nested directories and prints a summary.
* `camera_capture.py` — the capture controller: builds timestamped file
  names, optionally organized into a year subdirectory, invokes the camera
  collaborator and verifies the result; plus the burst loop and the
  command-line quality-mode parsing.

Python strings are modelled as Lean `String` (a wrapper around `List Char`),
the filesystem as a finite tree of named nodes, and the external camera and
any move failures as explicit parameters.
-/

namespace TC

/-! ### Decimal rendering (Python `str(n)` / `"{:0Nd}".format(n)` / `strftime` padding)

Python renders numbers in decimal with optional zero padding.  `digitChar10`
maps a single digit to its character, `natDigsLE` produces the little-endian
digit list of a number, `natToStr` the usual decimal string, and `padNat w n`
the string zero-padded to width `w` (Python `"{:0wd}".format(n)`). -/

def digitChar10 (d : Nat) : Char :=
  match d with
  | 0 => '0' | 1 => '1' | 2 => '2' | 3 => '3' | 4 => '4'
  | 5 => '5' | 6 => '6' | 7 => '7' | 8 => '8' | _ => '9'

def natDigsAux : Nat → Nat → List Char
  | 0, _ => []
  | fuel + 1, n =>
    if n < 10 then [digitChar10 n] else digitChar10 (n % 10) :: natDigsAux fuel (n / 10)

def natDigsLE (n : Nat) : List Char := natDigsAux (n + 1) n

theorem natDigsAux_irrel : ∀ f1 f2 n, n < f1 → n < f2 →
    natDigsAux f1 n = natDigsAux f2 n := by
  intro f1
  induction f1 with
  | zero => intro f2 n h1; omega
  | succ f ih =>
    intro f2 n h1 h2
    cases f2 with
    | zero => omega
    | succ g =>
      by_cases h10 : n < 10
      · simp [natDigsAux, h10]
      · simp only [natDigsAux, h10, if_false]
        have hdiv : n / 10 < n := Nat.div_lt_self (by omega) (by omega)
        rw [ih g (n / 10) (by omega) (by omega)]

theorem natDigsLE_eq (n : Nat) : natDigsLE n =
    if n < 10 then [digitChar10 n] else digitChar10 (n % 10) :: natDigsLE (n / 10) := by
  show natDigsAux (n + 1) n = _
  by_cases h10 : n < 10
  · simp [natDigsAux, h10]
  · simp only [natDigsAux, h10, if_false]
    have hdiv : n / 10 < n := Nat.div_lt_self (by omega) (by omega)
    rw [natDigsAux_irrel n (n / 10 + 1) (n / 10) (by omega) (by omega)]
    rfl

def natToStr (n : Nat) : String := String.mk (natDigsLE n).reverse

def padZeros (w : Nat) (l : List Char) : List Char :=
  List.replicate (w - l.length) '0' ++ l

def padNat (w n : Nat) : String := String.mk (padZeros w (natDigsLE n).reverse)

/-- Numeric value of a decimal character. -/
def charVal (c : Char) : Nat := c.toNat - 48

/-- Big-endian evaluation of a digit string. -/
def valBE (l : List Char) : Nat := l.foldl (fun a c => a * 10 + charVal c) 0

theorem charVal_digitChar10 (d : Nat) (h : d < 10) : charVal (digitChar10 d) = d := by
  interval_cases d <;> rfl

theorem valBE_natDigsLE_rev (n : Nat) : valBE (natDigsLE n).reverse = n := by
  induction n using Nat.strong_induction_on with
  | _ n ih =>
    rw [valBE, List.foldl_reverse]
    by_cases h : n < 10
    · rw [natDigsLE_eq, if_pos h]
      simp [charVal_digitChar10 n h]
    · rw [natDigsLE_eq, if_neg h]
      have hn : 0 < n := by omega
      have hdiv : n / 10 < n := Nat.div_lt_self hn (by omega)
      have := ih (n / 10) hdiv
      rw [valBE, List.foldl_reverse] at this
      simp only [List.foldr_cons, this]
      rw [charVal_digitChar10 (n % 10) (Nat.mod_lt n (by omega))]
      omega

theorem valBE_padZeros (w : Nat) (l : List Char) : valBE (padZeros w l) = valBE l := by
  rw [padZeros, valBE, valBE, List.foldl_append]
  have : ∀ k : Nat, (List.replicate k '0').foldl (fun (a : Nat) c => a * 10 + charVal c) 0 = 0 := by
    intro k
    induction k with
    | zero => rfl
    | succ m ihm => simpa [List.replicate_succ, charVal] using ihm
  rw [this]

theorem padNat_inj (w a b : Nat) (h : padNat w a = padNat w b) : a = b := by
  have hd : padZeros w (natDigsLE a).reverse = padZeros w (natDigsLE b).reverse :=
    congrArg String.data h
  have := congrArg valBE hd
  rwa [valBE_padZeros, valBE_padZeros, valBE_natDigsLE_rev, valBE_natDigsLE_rev] at this

theorem natToStr_inj (a b : Nat) (h : natToStr a = natToStr b) : a = b := by
  have hd : (natDigsLE a).reverse = (natDigsLE b).reverse := congrArg String.data h
  have := congrArg valBE hd
  rwa [valBE_natDigsLE_rev, valBE_natDigsLE_rev] at this

/-- Little-endian decimal digits with a fixed width (the low `w` digits). -/
def fixDigs : Nat → Nat → List Char
  | 0, _ => []
  | w + 1, n => digitChar10 (n % 10) :: fixDigs w (n / 10)

theorem fixDigs_length : ∀ w n, (fixDigs w n).length = w := by
  intro w
  induction w with
  | zero => intro n; rfl
  | succ m ih => intro n; simp [fixDigs, ih]

theorem fixDigs_zero : ∀ w, fixDigs w 0 = List.replicate w '0' := by
  intro w
  induction w with
  | zero => rfl
  | succ m ih => simp [fixDigs, ih, List.replicate_succ]; rfl

theorem fixDigs_add (b : Nat) : ∀ a n, fixDigs (a + b) n = fixDigs a n ++ fixDigs b (n / 10 ^ a) := by
  intro a
  induction a with
  | zero =>
    intro n
    rw [Nat.zero_add, pow_zero, Nat.div_one]
    rfl
  | succ m ih =>
    intro n
    rw [Nat.succ_add]
    show digitChar10 (n % 10) :: fixDigs (m + b) (n / 10) = _
    rw [ih (n / 10)]
    have : n / 10 / 10 ^ m = n / 10 ^ (m + 1) := by
      rw [Nat.div_div_eq_div_mul, pow_succ, mul_comm (10 ^ m) 10]
    rw [this]
    rfl

theorem natDigsLE_len_le : ∀ w n, 1 ≤ w → n < 10 ^ w → (natDigsLE n).length ≤ w := by
  intro w
  induction w with
  | zero => intro n h; omega
  | succ m ih =>
    intro n _ hlt
    by_cases h10 : n < 10
    · rw [natDigsLE_eq, if_pos h10]
      simp
    · rw [natDigsLE_eq, if_neg h10]
      have hm : 1 ≤ m := by
        by_contra hm0
        have : m = 0 := by omega
        subst this
        simp at hlt
        omega
      have hdiv : n / 10 < 10 ^ m := by
        rw [Nat.div_lt_iff_lt_mul (by omega)]
        calc n < 10 ^ (m + 1) := hlt
        _ = 10 ^ m * 10 := by rw [pow_succ]
      have := ih (n / 10) hm hdiv
      simp
      omega

theorem natDigsLE_len_gt : ∀ w n, 10 ^ w ≤ n → w + 1 ≤ (natDigsLE n).length := by
  intro w
  induction w with
  | zero =>
    intro n _
    by_cases h10 : n < 10
    · rw [natDigsLE_eq, if_pos h10]; simp
    · rw [natDigsLE_eq, if_neg h10]; simp
  | succ m ih =>
    intro n hge
    have h10 : ¬ n < 10 := by
      have h1 : (10 : Nat) ^ 1 ≤ 10 ^ (m + 1) := Nat.pow_le_pow_right (by omega) (by omega)
      simp at h1
      omega
    rw [natDigsLE_eq, if_neg h10]
    have hdiv : 10 ^ m ≤ n / 10 := by
      rw [Nat.le_div_iff_mul_le (by omega)]
      calc 10 ^ m * 10 = 10 ^ (m + 1) := by rw [pow_succ]
      _ ≤ n := hge
    have := ih (n / 10) hdiv
    simp
    omega

theorem padZeros_eq_fixDigs : ∀ w n, 1 ≤ w → n < 10 ^ w →
    padZeros w (natDigsLE n).reverse = (fixDigs w n).reverse := by
  intro w
  induction w with
  | zero => intro n h; omega
  | succ m ih =>
    intro n hw hlt
    by_cases h10 : n < 10
    · rw [natDigsLE_eq, if_pos h10]
      show List.replicate (m + 1 - 1) '0' ++ [digitChar10 n] = _
      have : fixDigs (m + 1) n = digitChar10 n :: List.replicate m '0' := by
        show digitChar10 (n % 10) :: fixDigs m (n / 10) = _
        rw [Nat.mod_eq_of_lt h10, Nat.div_eq_of_lt h10, fixDigs_zero]
      rw [this]
      simp
    · have hm : 1 ≤ m := by
        by_contra hm0
        have : m = 0 := by omega
        subst this
        simp at hlt
        omega
      have hdiv : n / 10 < 10 ^ m := by
        rw [Nat.div_lt_iff_lt_mul (by omega)]
        calc n < 10 ^ (m + 1) := hlt
        _ = 10 ^ m * 10 := by rw [pow_succ]
      rw [natDigsLE_eq, if_neg h10, List.reverse_cons]
      have hfix : (fixDigs (m + 1) n).reverse =
          (fixDigs m (n / 10)).reverse ++ [digitChar10 (n % 10)] := by
        show (digitChar10 (n % 10) :: fixDigs m (n / 10)).reverse = _
        simp
      rw [hfix, ← ih (n / 10) hm hdiv]
      rw [padZeros, padZeros]
      simp only [List.length_append, List.length_reverse, List.length_singleton]
      rw [Nat.succ_sub_succ]
      simp [List.append_assoc]

theorem padNat_data_length (w n : Nat) (h1 : 1 ≤ w) (h2 : n < 10 ^ w) :
    (padNat w n).data.length = w := by
  have hle : (natDigsLE n).length ≤ w := natDigsLE_len_le w n h1 h2
  simp only [padNat, padZeros, String.data]
  simp only [List.length_append, List.length_replicate, List.length_reverse]
  omega

theorem padNat_take3 (m : Nat) (h : m < 1000000) :
    (padNat 6 m).data.take 3 = (padNat 3 (m / 1000)).data := by
  have hbridge : (padNat 6 m).data = (fixDigs 6 m).reverse := by
    show padZeros 6 (natDigsLE m).reverse = _
    exact padZeros_eq_fixDigs 6 m (by omega) (by norm_num; omega)
  have hsplit : fixDigs 6 m = fixDigs 3 m ++ fixDigs 3 (m / 1000) := by
    have := fixDigs_add 3 3 m
    norm_num at this
    exact this
  have hdivlt : m / 1000 < 10 ^ 3 := by
    rw [Nat.div_lt_iff_lt_mul (by omega)]
    norm_num
    omega
  rw [hbridge, hsplit, List.reverse_append]
  set A := (fixDigs 3 (m / 1000)).reverse with hA
  have hlen : A.length = 3 := by
    rw [hA, List.length_reverse, fixDigs_length]
  rw [← hlen, List.take_left, hA]
  show _ = padZeros 3 (natDigsLE (m / 1000)).reverse
  rw [padZeros_eq_fixDigs 3 (m / 1000) (by omega) hdivlt]

/-! ### Python `pathlib` name splitting (`Path.stem` / `Path.suffix`)

`Path.suffix` is the part of the name from its last dot, provided that dot
is neither the leading character nor the final character; `Path.stem` is the
rest.  `rfindDot` is Python's `name.rfind('.')` (index of the last dot). -/

def rfindDot : List Char → Option Nat
  | [] => none
  | c :: cs =>
    match rfindDot cs with
    | some i => some (i + 1)
    | none => if c = '.' then some 0 else none

def pySplitExt (l : List Char) : List Char × List Char :=
  match rfindDot l with
  | some i => if 0 < i ∧ i < l.length - 1 then (l.take i, l.drop i) else (l, [])
  | none => (l, [])

def pyStem (name : String) : String := String.mk (pySplitExt name.data).1

def pySuffix (name : String) : String := String.mk (pySplitExt name.data).2

/-! ### Collision resolution (`cleanup_photo_structure.py`, lines 51-57)

The migrator resolves a destination-name collision by trying
`f"{stem}_{counter:03d}{suffix}"` for `counter = 1, 2, ...` until the name is
absent from the destination directory.  `findFree` runs that loop with
explicit fuel; `occupied.length + 1` units of fuel always suffice because the
candidate names are pairwise distinct. -/

def candName (stem sfx : String) (k : Nat) : String :=
  stem ++ "_" ++ padNat 3 k ++ sfx

def findFree (occupied : List String) (stem sfx : String) : Nat → Nat → String
  | 0, k => candName stem sfx k
  | fuel + 1, k =>
    if candName stem sfx k ∈ occupied then findFree occupied stem sfx fuel (k + 1)
    else candName stem sfx k

/-- The collision-handling loop of `cleanup_photo_structure` (lines 52-57):
keep the name if it is free, otherwise append `_NNN` counters until free. -/
def resolveDest (occupied : List String) (name : String) : String :=
  if name ∈ occupied then
    findFree occupied (pyStem name) (pySuffix name) (occupied.length + 1) 1
  else name

theorem string_data_append (a b : String) : (a ++ b).data = a.data ++ b.data :=
  String.data_append a b

theorem candName_inj (stem sfx : String) (j k : Nat)
    (h : candName stem sfx j = candName stem sfx k) : j = k := by
  have hd := congrArg String.data h
  simp only [candName, string_data_append, List.append_assoc] at hd
  have h1 := List.append_cancel_left hd
  have h2 := List.append_cancel_left h1
  have h3 := List.append_cancel_right h2
  exact padNat_inj 3 j k (String.ext h3)

theorem exists_fresh (occupied : List String) (stem sfx : String) :
    ∃ k, 1 ≤ k ∧ k ≤ occupied.length + 1 ∧ candName stem sfx k ∉ occupied := by
  by_contra hcon
  push_neg at hcon
  have hmaps : ∀ k ∈ Finset.Icc 1 (occupied.length + 1),
      candName stem sfx k ∈ occupied.toFinset := by
    intro k hk
    obtain ⟨h1, h2⟩ := Finset.mem_Icc.mp hk
    exact List.mem_toFinset.mpr (hcon k h1 h2)
  have hinj : Set.InjOn (candName stem sfx) (Finset.Icc 1 (occupied.length + 1)) := by
    intro a _ b _ hab
    exact candName_inj stem sfx a b hab
  have himg : (Finset.Icc 1 (occupied.length + 1)).image (candName stem sfx) ⊆
      occupied.toFinset := by
    intro x hx
    obtain ⟨k, hk, hkx⟩ := Finset.mem_image.mp hx
    exact hkx ▸ hmaps k hk
  have hcard1 : ((Finset.Icc 1 (occupied.length + 1)).image (candName stem sfx)).card =
      occupied.length + 1 := by
    rw [Finset.card_image_of_injOn hinj, Nat.card_Icc]
    omega
  have hcard2 := Finset.card_le_card himg
  have hcard3 := List.toFinset_card_le occupied
  omega

theorem findFree_spec (occupied : List String) (stem sfx : String) :
    ∀ fuel k0, (∃ k, k0 ≤ k ∧ k < k0 + fuel ∧ candName stem sfx k ∉ occupied) →
    ∃ k, k0 ≤ k ∧ candName stem sfx k ∉ occupied ∧
      (∀ j, k0 ≤ j → j < k → candName stem sfx j ∈ occupied) ∧
      findFree occupied stem sfx fuel k0 = candName stem sfx k := by
  intro fuel
  induction fuel with
  | zero =>
    intro k0 ⟨k, h1, h2, _⟩
    omega
  | succ n ih =>
    intro k0 ⟨k, h1, h2, h3⟩
    by_cases hmem : candName stem sfx k0 ∈ occupied
    · have hk0 : k ≠ k0 := by
        intro he
        exact h3 (he ▸ hmem)
      obtain ⟨k', ha, hb, hc, hd⟩ := ih (k0 + 1) ⟨k, by omega, by omega, h3⟩
      refine ⟨k', by omega, hb, ?_, ?_⟩
      · intro j hj1 hj2
        rcases Nat.eq_or_lt_of_le hj1 with he | hlt
        · exact he ▸ hmem
        · exact hc j hlt hj2
      · rw [findFree, if_pos hmem]
        exact hd
    · refine ⟨k0, le_refl _, hmem, by omega, ?_⟩
      rw [findFree, if_neg hmem]

/-- The resolved destination name is always absent from the directory. -/
theorem resolveDest_not_mem (occupied : List String) (name : String) :
    resolveDest occupied name ∉ occupied := by
  rw [resolveDest]
  by_cases h : name ∈ occupied
  · rw [if_pos h]
    obtain ⟨k, h1, h2, h3⟩ := exists_fresh occupied (pyStem name) (pySuffix name)
    obtain ⟨k', _, hb, _, hd⟩ :=
      findFree_spec occupied (pyStem name) (pySuffix name) (occupied.length + 1) 1
        ⟨k, h1, by omega, h3⟩
    rw [hd]
    exact hb
  · rw [if_neg h]
    exact h

/-- Characterization of collision resolution: a free name is kept unchanged;
an occupied name gets the `_NNN` counter with the least free `NNN ≥ 1`. -/
theorem resolveDest_spec (occupied : List String) (name : String) :
    (name ∉ occupied → resolveDest occupied name = name) ∧
    (name ∈ occupied → ∃ k, 1 ≤ k ∧
      candName (pyStem name) (pySuffix name) k ∉ occupied ∧
      (∀ j, 1 ≤ j → j < k → candName (pyStem name) (pySuffix name) j ∈ occupied) ∧
      resolveDest occupied name = candName (pyStem name) (pySuffix name) k) := by
  constructor
  · intro h
    rw [resolveDest, if_neg h]
  · intro h
    rw [resolveDest, if_pos h]
    obtain ⟨k, h1, h2, h3⟩ := exists_fresh occupied (pyStem name) (pySuffix name)
    exact findFree_spec occupied (pyStem name) (pySuffix name) (occupied.length + 1) 1
      ⟨k, h1, by omega, h3⟩

/-! ### Filesystem model

A directory is a finite list of named entries in `os.scandir` order; a node
is either a plain file or a directory.  The migrator only ever descends three
fixed levels (year / month / day), so all of its traversals are structural
recursions over entry lists. -/

inductive Node where
  | file : Node
  | dir : List (String × Node) → Node

abbrev Entries := List (String × Node)

/-- Python `str.isdigit()`: non-empty and all characters are digits. -/
def isDigitName (s : String) : Bool := !s.data.isEmpty && s.data.all Char.isDigit

/-- `pathlib` glob pattern `*.jpg` (case-sensitive on Linux): the name ends
in the four characters `.jpg`. -/
def isJpgMatch (name : String) : Bool :=
  decide (name.data.drop (name.data.length - 4) = ".jpg".data)

/-- State threaded through the move phase of one year directory: the names
currently present in the year directory (for `destination.exists()` checks),
the files moved into it so far, and the running moved/error counters. -/
structure MState where
  occ : List String
  newFiles : Entries
  mv : Nat
  er : Nat

/-- `cleanup_photo_structure`, lines 48-64: move every `*.jpg` entry of a day
directory into the year directory, resolving collisions; a move that fails
(`fail` true on its path) is caught, counted, and leaves the entry in place. -/
def procDay (fail : String → Bool) (path : String) :
    List (String × Node) → MState → MState × Entries
  | [], st => (st, [])
  | e :: rest, st =>
    if isJpgMatch e.1 then
      let dest := resolveDest st.occ e.1
      if fail (path ++ "/" ++ e.1) then
        let r := procDay fail path rest { st with er := st.er + 1 }
        (r.1, e :: r.2)
      else
        procDay fail path rest
          { occ := st.occ ++ [dest], newFiles := st.newFiles ++ [(dest, e.2)],
            mv := st.mv + 1, er := st.er }
    else
      let r := procDay fail path rest st
      (r.1, e :: r.2)

/-- `cleanup_photo_structure`, lines 41-64: within a month directory, descend
into each purely-numeric subdirectory (a day directory); skip everything
else. -/
def procMonth (fail : String → Bool) (path : String) :
    List (String × Node) → MState → MState × Entries
  | [], st => (st, [])
  | (n, Node.dir des) :: rest, st =>
    if isDigitName n then
      let r1 := procDay fail (path ++ "/" ++ n) des st
      let r2 := procMonth fail path rest r1.1
      (r2.1, (n, Node.dir r1.2) :: r2.2)
    else
      let r := procMonth fail path rest st
      (r.1, (n, Node.dir des) :: r.2)
  | (n, Node.file) :: rest, st =>
    let r := procMonth fail path rest st
    (r.1, (n, Node.file) :: r.2)

/-- `cleanup_photo_structure`, lines 34-64: within a year directory, descend
into each purely-numeric subdirectory (a month directory); skip everything
else. -/
def procYear (fail : String → Bool) (path : String) :
    List (String × Node) → MState → MState × Entries
  | [], st => (st, [])
  | (n, Node.dir mes) :: rest, st =>
    if isDigitName n then
      let r1 := procMonth fail (path ++ "/" ++ n) mes st
      let r2 := procYear fail path rest r1.1
      (r2.1, (n, Node.dir r1.2) :: r2.2)
    else
      let r := procYear fail path rest st
      (r.1, (n, Node.dir mes) :: r.2)
  | (n, Node.file) :: rest, st =>
    let r := procYear fail path rest st
    (r.1, (n, Node.file) :: r.2)

/-- Move phase for one year directory: files moved in are appended to the
directory listing; `destination.exists()` initially sees every original
entry name. -/
def migrateYear (fail : String → Bool) (yname : String) (yes : Entries) :
    Entries × Nat × Nat :=
  let st0 : MState := { occ := yes.map Prod.fst, newFiles := [], mv := 0, er := 0 }
  let r := procYear fail yname yes st0
  (r.2 ++ r.1.newFiles, r.1.mv, r.1.er)

/-- `cleanup_photo_structure`, lines 27-64: the move phase over the root,
descending only into purely-numeric directories (year directories). -/
def procRoot (fail : String → Bool) : Entries → Entries × Nat × Nat
  | [] => ([], 0, 0)
  | (n, Node.dir yes) :: rest =>
    if isDigitName n then
      let r1 := migrateYear fail n yes
      let r2 := procRoot fail rest
      ((n, Node.dir r1.1) :: r2.1, r1.2.1 + r2.2.1, r1.2.2 + r2.2.2)
    else
      let r := procRoot fail rest
      ((n, Node.dir yes) :: r.1, r.2.1, r.2.2)
  | (n, Node.file) :: rest =>
    let r := procRoot fail rest
    ((n, Node.file) :: r.1, r.2.1, r.2.2)

/-- `cleanup_photo_structure`, lines 79-85: inside a (numeric) month
directory, remove every empty subdirectory, whatever its name. -/
def pruneMonth (mes : Entries) : Entries :=
  mes.filter (fun e =>
    match e.2 with
    | Node.dir [] => false
    | _ => true)

/-- `cleanup_photo_structure`, lines 74-93: inside a year directory, prune
each purely-numeric month directory and remove it if it is empty afterwards;
leave every other entry alone. -/
def pruneYear (yes : Entries) : Entries :=
  yes.filterMap (fun e =>
    match e with
    | (n, Node.dir mes) =>
      if isDigitName n then
        let mes1 := pruneMonth mes
        if mes1.isEmpty then none else some (n, Node.dir mes1)
      else some e
    | _ => some e)

/-- `cleanup_photo_structure`, lines 70-93: prune inside each purely-numeric
year directory; year directories themselves are never removed. -/
def prunePhase (es : Entries) : Entries :=
  es.map (fun e =>
    match e with
    | (n, Node.dir yes) => if isDigitName n then (n, Node.dir (pruneYear yes)) else e
    | _ => e)

structure MigResult where
  tree : Entries
  moved : Nat
  errs : Nat

/-- `cleanup_photo_structure` (lines 24-97): the full migration — move phase
followed by empty-directory pruning.  `fail` models which `shutil.move`
calls raise (the caught per-file exceptions); `errs` counts them. -/
def cleanup_photo_structure (fail : String → Bool) (es : Entries) : MigResult :=
  let r := procRoot fail es
  ⟨prunePhase r.1, r.2.1, r.2.2⟩

/-- No `shutil.move` call fails. -/
def noFail : String → Bool := fun _ => false

/-- `cleanup_photo_structure`, lines 95-97: the final summary reports the
moved count (and nothing else). -/
def summaryLines (movedCount : Nat) : List String :=
  ["📊 Cleanup Summary:", "   📸 Photos moved: " ++ natToStr movedCount]

/-- `len(list(day_dir.glob("*.jpg")))`: entries of a day directory matching
the pattern. -/
def dayJpgCnt (des : Entries) : Nat :=
  (des.filter (fun e => isJpgMatch e.1)).length

def monthJpgCnt (mes : Entries) : Nat :=
  (mes.map (fun d =>
    match d with
    | (dn, Node.dir des) => if isDigitName dn then dayJpgCnt des else 0
    | _ => 0)).sum

def yearJpgCnt (yes : Entries) : Nat :=
  (yes.map (fun m =>
    match m with
    | (mn, Node.dir mes) => if isDigitName mn then monthJpgCnt mes else 0
    | _ => 0)).sum

/-- `main` of `cleanup_photo_structure.py`, lines 131-138: count the photos
still in nested `YYYY/MM/DD` position. -/
def countNested (es : Entries) : Nat :=
  (es.map (fun y =>
    match y with
    | (yn, Node.dir yes) => if isDigitName yn then yearJpgCnt yes else 0
    | _ => 0)).sum

/-! ### Observed counters for the move phase

`dayOkCnt`/`dayErrCnt` (and their month/year/root aggregates) count, per
directory level, the `*.jpg` entries whose moves succeed resp. fail; they
mirror the traversal guards of `cleanup_photo_structure` exactly and are the
reference values for the `moved_count` variable and the caught exceptions. -/

def dayOkCnt (fail : String → Bool) (path : String) (des : Entries) : Nat :=
  (des.filter (fun e => isJpgMatch e.1 && !fail (path ++ "/" ++ e.1))).length

def dayErrCnt (fail : String → Bool) (path : String) (des : Entries) : Nat :=
  (des.filter (fun e => isJpgMatch e.1 && fail (path ++ "/" ++ e.1))).length

def monthOkCnt (fail : String → Bool) (path : String) (mes : Entries) : Nat :=
  (mes.map (fun d =>
    match d with
    | (dn, Node.dir des) => if isDigitName dn then dayOkCnt fail (path ++ "/" ++ dn) des else 0
    | _ => 0)).sum

def monthErrCnt (fail : String → Bool) (path : String) (mes : Entries) : Nat :=
  (mes.map (fun d =>
    match d with
    | (dn, Node.dir des) => if isDigitName dn then dayErrCnt fail (path ++ "/" ++ dn) des else 0
    | _ => 0)).sum

def yearOkCnt (fail : String → Bool) (path : String) (yes : Entries) : Nat :=
  (yes.map (fun m =>
    match m with
    | (mn, Node.dir mes) => if isDigitName mn then monthOkCnt fail (path ++ "/" ++ mn) mes else 0
    | _ => 0)).sum

def yearErrCnt (fail : String → Bool) (path : String) (yes : Entries) : Nat :=
  (yes.map (fun m =>
    match m with
    | (mn, Node.dir mes) => if isDigitName mn then monthErrCnt fail (path ++ "/" ++ mn) mes else 0
    | _ => 0)).sum

def rootOkCnt (fail : String → Bool) (es : Entries) : Nat :=
  (es.map (fun y =>
    match y with
    | (yn, Node.dir yes) => if isDigitName yn then yearOkCnt fail yn yes else 0
    | _ => 0)).sum

def rootErrCnt (fail : String → Bool) (es : Entries) : Nat :=
  (es.map (fun y =>
    match y with
    | (yn, Node.dir yes) => if isDigitName yn then yearErrCnt fail yn yes else 0
    | _ => 0)).sum

/-! ### Camera capture model (`camera_capture.py`)

The camera collaborator is external: a capture attempt either creates the
file (with some size), leaves no file, or raises.  `capture_photo` mirrors
`CameraController.capture_photo` (lines 133-190): bail out when the
controller is not initialized, build the timestamped path (year subdirectory
when `organize_by_date` is set), invoke the camera, and return the path if
the file exists afterwards.  `strftime` fields are zero-padded decimals;
`%f` is the 6-digit microsecond count and the Python slice `[:-3]` drops its
last three digits. -/

structure Timestamp where
  year : Nat
  month : Nat
  day : Nat
  hour : Nat
  minute : Nat
  second : Nat
  micro : Nat

inductive CamResult where
  | created : Nat → CamResult
  | notCreated : CamResult
  | raised : CamResult

structure CaptureOutcome where
  result : Option String
  invokedCamera : Bool
  dirsCreated : List String

/-- Python `s[:-3]`: drop the last three characters. -/
def pyDropLast3 (s : String) : String := String.mk (s.data.take (s.data.length - 3))

/-- `now.strftime("%Y%m%d")`. -/
def dateStr (now : Timestamp) : String :=
  natToStr now.year ++ padNat 2 now.month ++ padNat 2 now.day

/-- `now.strftime("%H%M%S_%f")[:-3]`. -/
def hmsMilliStr (now : Timestamp) : String :=
  pyDropLast3 (padNat 2 now.hour ++ padNat 2 now.minute ++ padNat 2 now.second
    ++ "_" ++ padNat 6 now.micro)

/-- `CameraController.capture_photo` (lines 133-190). -/
def capture_photo (isInit : Bool) (photoDir pfx : String) (organizeByDate : Bool)
    (now : Timestamp) (cam : CamResult) : CaptureOutcome :=
  if isInit then
    let saveDir := if organizeByDate then photoDir ++ "/" ++ natToStr now.year else photoDir
    let dirs := if organizeByDate then [photoDir ++ "/" ++ natToStr now.year] else []
    let filename := pfx ++ "_" ++ dateStr now ++ "_" ++ hmsMilliStr now ++ ".jpg"
    let filepath := saveDir ++ "/" ++ filename
    match cam with
    | CamResult.created _ => ⟨some filepath, true, dirs⟩
    | CamResult.notCreated => ⟨none, true, dirs⟩
    | CamResult.raised => ⟨none, true, dirs⟩
  else ⟨none, false, []⟩

/-- The loop body of `CameraController.capture_burst` (lines 207-219):
`count` captures with prefix `f"{pfx}_{i+1}"`, collecting successful paths;
`env` supplies the wall clock and camera behavior of each iteration. -/
def burstLoop (photoDir pfx : String) (env : Nat → Timestamp × CamResult) :
    Nat → Nat → List String × Nat
  | _, 0 => ([], 0)
  | i, n + 1 =>
    let o := capture_photo true photoDir (pfx ++ "_" ++ natToStr (i + 1)) true
      (env i).1 (env i).2
    let (rest, inv) := burstLoop photoDir pfx env (i + 1) n
    (match o.result with
     | some p => p :: rest
     | none => rest, inv + 1)

/-- `CameraController.capture_burst` (lines 192-219): the second component
counts how many times the camera collaborator is invoked. -/
def capture_burst (isInit : Bool) (photoDir pfx : String) (count : Nat)
    (env : Nat → Timestamp × CamResult) : List String × Nat :=
  if isInit then burstLoop photoDir pfx env 0 count else ([], 0)

/-- Python `str.lower()`: lower-case every character. -/
def pyLower (s : String) : String := String.mk (s.data.map Char.toLower)

/-- `main` of `camera_capture.py`, lines 236-243: parse the optional
quality-mode argument (`sys.argv[1:]`); unknown or missing arguments select
`production`. -/
def parseQualityMode (args : List String) : String :=
  match args with
  | [] => "production"
  | a :: _ =>
    let mode := pyLower a
    if mode = "production" ∨ mode = "high_quality" ∨ mode = "fast" then mode
    else "production"

/-! ### Name-splitting lemmas for `*.jpg` names -/

theorem rfindDot_append_jpg : ∀ l : List Char, rfindDot (l ++ ".jpg".data) = some l.length := by
  intro l
  induction l with
  | nil => rfl
  | cons c rest ih =>
    show rfindDot (c :: (rest ++ ".jpg".data)) = _
    rw [rfindDot, ih]
    simp

theorem pySplitExt_jpg (l : List Char) (h : l ≠ []) :
    pySplitExt (l ++ ".jpg".data) = (l, ".jpg".data) := by
  rw [pySplitExt, rfindDot_append_jpg]
  have hlen : (l ++ ".jpg".data).length = l.length + 4 := by simp [String.data]
  have hpos : 0 < l.length := List.length_pos.mpr h
  show (if 0 < l.length ∧ l.length < (l ++ ".jpg".data).length - 1 then
      ((l ++ ".jpg".data).take l.length, (l ++ ".jpg".data).drop l.length)
    else (l ++ ".jpg".data, [])) = _
  rw [if_pos (by omega)]
  rw [List.take_left, List.drop_left]

theorem string_ne_empty_data (s : String) (h : s ≠ "") : s.data ≠ [] := by
  intro hd
  apply h
  apply String.ext
  simpa using hd

theorem mk_data_eq (s : String) : String.mk s.data = s := by
  cases s
  rfl

theorem pyStem_jpg (s : String) (h : s ≠ "") : pyStem (s ++ ".jpg") = s := by
  rw [pyStem, string_data_append, pySplitExt_jpg s.data (string_ne_empty_data s h)]

theorem pySuffix_jpg (s : String) (h : s ≠ "") : pySuffix (s ++ ".jpg") = ".jpg" := by
  rw [pySuffix, string_data_append, pySplitExt_jpg s.data (string_ne_empty_data s h)]

theorem isJpgMatch_append (s : String) : isJpgMatch (s ++ ".jpg") = true := by
  rw [isJpgMatch]
  apply decide_eq_true
  rw [string_data_append]
  have hlen : (s.data ++ ".jpg".data).length = s.data.length + 4 := by simp [String.data]
  rw [hlen, show s.data.length + 4 - 4 = s.data.length from by omega, List.drop_left]

theorem dot_mem_jpg_append (s : String) : '.' ∈ (s ++ ".jpg").data := by
  rw [string_data_append]
  exact List.mem_append.mpr (Or.inr (by simp [String.data]))

theorem dot_mem_cand (s : String) (k : Nat) :
    '.' ∈ (s ++ "_" ++ padNat 3 k ++ ".jpg").data := by
  rw [string_data_append]
  exact List.mem_append.mpr (Or.inr (by simp [String.data]))

theorem padNat_len_ge (w n : Nat) : w ≤ (padNat w n).length := by
  show w ≤ (padZeros w (natDigsLE n).reverse).length
  simp only [padZeros, List.length_append, List.length_replicate]
  omega

theorem cand_ne_jpg_append (s : String) (k : Nat) :
    s ++ "_" ++ padNat 3 k ++ ".jpg" ≠ s ++ ".jpg" := by
  intro he
  have hl := congrArg String.length he
  simp only [String.length_append] at hl
  have h3 := padNat_len_ge 3 k
  have h1 : ("_" : String).length = 1 := rfl
  omega

/-! ### Formatting lemmas for capture paths -/

theorem natToStr_len4 (y : Nat) (h1 : 1000 ≤ y) (h2 : y ≤ 9999) : (natToStr y).length = 4 := by
  have h4 : (10 : Nat) ^ 4 = 10000 := by norm_num
  have h3 : (10 : Nat) ^ 3 = 1000 := by norm_num
  have hle := natDigsLE_len_le 4 y (by omega) (by omega)
  have hgt := natDigsLE_len_gt 3 y (by omega)
  show (natDigsLE y).reverse.length = 4
  rw [List.length_reverse]
  omega

theorem hmsMilliStr_eq (now : Timestamp) (h : now.micro < 1000000) :
    hmsMilliStr now = padNat 2 now.hour ++ padNat 2 now.minute ++ padNat 2 now.second
      ++ "_" ++ padNat 3 (now.micro / 1000) := by
  have h6 : (10 : Nat) ^ 6 = 1000000 := by norm_num
  have hP : (padNat 6 now.micro).data.length = 6 :=
    padNat_data_length 6 now.micro (by omega) (by omega)
  apply String.ext
  show ((padNat 2 now.hour ++ padNat 2 now.minute ++ padNat 2 now.second ++ "_"
      ++ padNat 6 now.micro).data.take
    ((padNat 2 now.hour ++ padNat 2 now.minute ++ padNat 2 now.second ++ "_"
      ++ padNat 6 now.micro).data.length - 3)) = _
  rw [string_data_append
    (padNat 2 now.hour ++ padNat 2 now.minute ++ padNat 2 now.second ++ "_")
    (padNat 6 now.micro)]
  rw [List.length_append, hP]
  rw [show (padNat 2 now.hour ++ padNat 2 now.minute ++ padNat 2 now.second ++ "_").data.length
      + 6 - 3 =
    (padNat 2 now.hour ++ padNat 2 now.minute ++ padNat 2 now.second ++ "_").data.length + 3
    from by omega]
  rw [List.take_append_eq_append_take]
  rw [List.take_of_length_le (by omega)]
  rw [Nat.add_sub_cancel_left]
  rw [padNat_take3 now.micro h]
  rw [string_data_append
    (padNat 2 now.hour ++ padNat 2 now.minute ++ padNat 2 now.second ++ "_")
    (padNat 3 (now.micro / 1000))]

/-! ### Move-phase invariants: the day level -/

theorem procDay_mv (fail : String → Bool) (path : String) :
    ∀ (des : Entries) (st : MState),
    (procDay fail path des st).1.mv = st.mv + dayOkCnt fail path des := by
  intro des
  induction des with
  | nil => intro st; simp [procDay, dayOkCnt]
  | cons e rest ih =>
    intro st
    cases hm : isJpgMatch e.1 with
    | false => simp [procDay, hm, ih, dayOkCnt, List.filter_cons]
    | true =>
      cases hf : fail (path ++ "/" ++ e.1) with
      | false =>
        simp only [procDay, hm, hf, if_true, if_false, Bool.false_eq_true]
        rw [ih]
        simp [dayOkCnt, List.filter_cons, hm, hf]
        omega
      | true =>
        simp only [procDay, hm, hf, if_true]
        rw [ih]
        simp [dayOkCnt, List.filter_cons, hm, hf]

theorem procDay_er (fail : String → Bool) (path : String) :
    ∀ (des : Entries) (st : MState),
    (procDay fail path des st).1.er = st.er + dayErrCnt fail path des := by
  intro des
  induction des with
  | nil => intro st; simp [procDay, dayErrCnt]
  | cons e rest ih =>
    intro st
    cases hm : isJpgMatch e.1 with
    | false => simp [procDay, hm, ih, dayErrCnt, List.filter_cons]
    | true =>
      cases hf : fail (path ++ "/" ++ e.1) with
      | false =>
        simp only [procDay, hm, hf, if_true, if_false, Bool.false_eq_true]
        rw [ih]
        simp [dayErrCnt, List.filter_cons, hm, hf]
      | true =>
        simp only [procDay, hm, hf, if_true]
        rw [ih]
        simp [dayErrCnt, List.filter_cons, hm, hf]
        omega

theorem procDay_rem (fail : String → Bool) (path : String) :
    ∀ (des : Entries) (st : MState),
    (procDay fail path des st).2 =
      des.filter (fun e => !(isJpgMatch e.1 && !fail (path ++ "/" ++ e.1))) := by
  intro des
  induction des with
  | nil => intro st; simp [procDay]
  | cons e rest ih =>
    intro st
    cases hm : isJpgMatch e.1 with
    | false => simp [procDay, hm, ih, List.filter_cons]
    | true =>
      cases hf : fail (path ++ "/" ++ e.1) with
      | false =>
        simp only [procDay, hm, hf, if_true, if_false, Bool.false_eq_true]
        rw [ih]
        simp [List.filter_cons, hm, hf]
      | true =>
        simp only [procDay, hm, hf, if_true]
        rw [ih]
        simp [List.filter_cons, hm, hf]

theorem procDay_occ (fail : String → Bool) (path : String) :
    ∀ (des : Entries) (st : MState),
    ∃ nf : Entries, (procDay fail path des st).1.newFiles = st.newFiles ++ nf ∧
      (procDay fail path des st).1.occ = st.occ ++ nf.map Prod.fst := by
  intro des
  induction des with
  | nil => intro st; exact ⟨[], by simp [procDay]⟩
  | cons e rest ih =>
    intro st
    cases hm : isJpgMatch e.1 with
    | false =>
      obtain ⟨nf, h1, h2⟩ := ih st
      exact ⟨nf, by simp [procDay, hm, h1, h2]⟩
    | true =>
      cases hf : fail (path ++ "/" ++ e.1) with
      | false =>
        obtain ⟨nf, h1, h2⟩ := ih
          { occ := st.occ ++ [resolveDest st.occ e.1],
            newFiles := st.newFiles ++ [(resolveDest st.occ e.1, e.2)],
            mv := st.mv + 1, er := st.er }
        refine ⟨(resolveDest st.occ e.1, e.2) :: nf, ?_, ?_⟩
        · simp only [procDay, hm, hf, if_true, if_false, Bool.false_eq_true]
          rw [h1]
          simp
        · simp only [procDay, hm, hf, if_true, if_false, Bool.false_eq_true]
          rw [h2]
          simp
      | true =>
        obtain ⟨nf, h1, h2⟩ := ih { st with er := st.er + 1 }
        exact ⟨nf, by simp [procDay, hm, hf, h1, h2]⟩

theorem procDay_nodup (fail : String → Bool) (path : String) :
    ∀ (des : Entries) (st : MState),
    st.occ.Nodup → (procDay fail path des st).1.occ.Nodup := by
  intro des
  induction des with
  | nil => intro st h; simpa [procDay] using h
  | cons e rest ih =>
    intro st h
    cases hm : isJpgMatch e.1 with
    | false => simpa [procDay, hm] using ih st h
    | true =>
      cases hf : fail (path ++ "/" ++ e.1) with
      | false =>
        simp only [procDay, hm, hf, if_true, if_false, Bool.false_eq_true]
        apply ih
        simp only [List.nodup_append]
        refine ⟨h, List.nodup_singleton _, ?_⟩
        intro a ha hb
        simp only [List.mem_singleton] at hb
        subst hb
        exact resolveDest_not_mem st.occ e.1 ha
      | true =>
        simpa [procDay, hm, hf] using ih { st with er := st.er + 1 } h

/-! ### Move-phase invariants: the month level -/

theorem procMonth_mv (fail : String → Bool) (path : String) :
    ∀ (mes : Entries) (st : MState),
    (procMonth fail path mes st).1.mv = st.mv + monthOkCnt fail path mes := by
  intro mes
  induction mes with
  | nil => intro st; simp [procMonth, monthOkCnt]
  | cons e rest ih =>
    intro st
    obtain ⟨n, node⟩ := e
    cases node with
    | file => simp [procMonth, ih, monthOkCnt]
    | dir des =>
      cases hd : isDigitName n with
      | false => simp [procMonth, hd, ih, monthOkCnt]
      | true =>
        simp only [procMonth, hd, if_true]
        rw [ih, procDay_mv]
        simp [monthOkCnt, hd]
        omega

theorem procMonth_er (fail : String → Bool) (path : String) :
    ∀ (mes : Entries) (st : MState),
    (procMonth fail path mes st).1.er = st.er + monthErrCnt fail path mes := by
  intro mes
  induction mes with
  | nil => intro st; simp [procMonth, monthErrCnt]
  | cons e rest ih =>
    intro st
    obtain ⟨n, node⟩ := e
    cases node with
    | file => simp [procMonth, ih, monthErrCnt]
    | dir des =>
      cases hd : isDigitName n with
      | false => simp [procMonth, hd, ih, monthErrCnt]
      | true =>
        simp only [procMonth, hd, if_true]
        rw [ih, procDay_er]
        simp [monthErrCnt, hd]
        omega

theorem procMonth_occ (fail : String → Bool) (path : String) :
    ∀ (mes : Entries) (st : MState),
    ∃ nf : Entries, (procMonth fail path mes st).1.newFiles = st.newFiles ++ nf ∧
      (procMonth fail path mes st).1.occ = st.occ ++ nf.map Prod.fst := by
  intro mes
  induction mes with
  | nil => intro st; exact ⟨[], by simp [procMonth]⟩
  | cons e rest ih =>
    intro st
    obtain ⟨n, node⟩ := e
    cases node with
    | file =>
      obtain ⟨nf, h1, h2⟩ := ih st
      exact ⟨nf, by simp [procMonth, h1, h2]⟩
    | dir des =>
      cases hd : isDigitName n with
      | false =>
        obtain ⟨nf, h1, h2⟩ := ih st
        exact ⟨nf, by simp [procMonth, hd, h1, h2]⟩
      | true =>
        obtain ⟨nf1, h1, h2⟩ := procDay_occ fail (path ++ "/" ++ n) des st
        obtain ⟨nf2, h3, h4⟩ := ih (procDay fail (path ++ "/" ++ n) des st).1
        refine ⟨nf1 ++ nf2, ?_, ?_⟩
        · simp only [procMonth, hd, if_true]
          rw [h3, h1, List.append_assoc]
        · simp only [procMonth, hd, if_true]
          rw [h4, h2, List.map_append, List.append_assoc]

theorem procMonth_nodup (fail : String → Bool) (path : String) :
    ∀ (mes : Entries) (st : MState),
    st.occ.Nodup → (procMonth fail path mes st).1.occ.Nodup := by
  intro mes
  induction mes with
  | nil => intro st h; simpa [procMonth] using h
  | cons e rest ih =>
    intro st h
    obtain ⟨n, node⟩ := e
    cases node with
    | file => simpa [procMonth] using ih st h
    | dir des =>
      cases hd : isDigitName n with
      | false => simpa [procMonth, hd] using ih st h
      | true =>
        simp only [procMonth, hd, if_true]
        exact ih _ (procDay_nodup fail (path ++ "/" ++ n) des st h)

theorem procMonth_names (fail : String → Bool) (path : String) :
    ∀ (mes : Entries) (st : MState),
    (procMonth fail path mes st).2.map Prod.fst = mes.map Prod.fst := by
  intro mes
  induction mes with
  | nil => intro st; simp [procMonth]
  | cons e rest ih =>
    intro st
    obtain ⟨n, node⟩ := e
    cases node with
    | file => simp [procMonth, ih]
    | dir des =>
      cases hd : isDigitName n with
      | false => simp [procMonth, hd, ih]
      | true => simp [procMonth, hd, ih]

theorem procMonth_mem_keep (fail : String → Bool) (path : String) :
    ∀ (mes : Entries) (st : MState) (e : String × Node), e ∈ mes →
    (match e.2 with
     | Node.file => True
     | Node.dir _ => isDigitName e.1 = false) →
    e ∈ (procMonth fail path mes st).2 := by
  intro mes
  induction mes with
  | nil => intro st e he _; exact absurd he (List.not_mem_nil e)
  | cons a rest ih =>
    intro st e he hcond
    obtain ⟨n, node⟩ := a
    rcases List.mem_cons.mp he with he1 | he2
    · subst he1
      cases node with
      | file => simp [procMonth]
      | dir des =>
        simp only at hcond
        simp [procMonth, hcond]
    · cases node with
      | file => simp only [procMonth]; exact List.mem_cons_of_mem _ (ih st e he2 hcond)
      | dir des =>
        cases hd : isDigitName n with
        | false =>
          simp only [procMonth, hd, if_false, Bool.false_eq_true]
          exact List.mem_cons_of_mem _ (ih st e he2 hcond)
        | true =>
          simp only [procMonth, hd, if_true]
          exact List.mem_cons_of_mem _ (ih _ e he2 hcond)

theorem procMonth_numdir (fail : String → Bool) (path : String) :
    ∀ (mes : Entries) (st : MState) (e : String × Node),
    e ∈ (procMonth fail path mes st).2 → ∀ des1, e.2 = Node.dir des1 →
    isDigitName e.1 = true →
    ∃ des0 st0, des1 = (procDay fail (path ++ "/" ++ e.1) des0 st0).2 := by
  intro mes
  induction mes with
  | nil => intro st e he; simp [procMonth] at he
  | cons a rest ih =>
    intro st e he des1 hdir hdig
    obtain ⟨n, node⟩ := a
    cases node with
    | file =>
      simp only [procMonth] at he
      rcases List.mem_cons.mp he with he1 | he2
      · subst he1; simp at hdir
      · exact ih st e he2 des1 hdir hdig
    | dir des =>
      cases hd : isDigitName n with
      | false =>
        simp only [procMonth, hd, if_false, Bool.false_eq_true] at he
        rcases List.mem_cons.mp he with he1 | he2
        · subst he1
          simp only at hdir hdig
          rw [hdig] at hd
          exact absurd hd (by simp)
        · exact ih st e he2 des1 hdir hdig
      | true =>
        simp only [procMonth, hd, if_true] at he
        rcases List.mem_cons.mp he with he1 | he2
        · subst he1
          simp only at hdir hdig ⊢
          cases hdir
          exact ⟨des, st, rfl⟩
        · exact ih _ e he2 des1 hdir hdig

/-! ### Move-phase invariants: the year level -/

theorem procYear_mv (fail : String → Bool) (path : String) :
    ∀ (yes : Entries) (st : MState),
    (procYear fail path yes st).1.mv = st.mv + yearOkCnt fail path yes := by
  intro yes
  induction yes with
  | nil => intro st; simp [procYear, yearOkCnt]
  | cons e rest ih =>
    intro st
    obtain ⟨n, node⟩ := e
    cases node with
    | file => simp [procYear, ih, yearOkCnt]
    | dir mes =>
      cases hd : isDigitName n with
      | false => simp [procYear, hd, ih, yearOkCnt]
      | true =>
        simp only [procYear, hd, if_true]
        rw [ih, procMonth_mv]
        simp [yearOkCnt, hd]
        omega

theorem procYear_er (fail : String → Bool) (path : String) :
    ∀ (yes : Entries) (st : MState),
    (procYear fail path yes st).1.er = st.er + yearErrCnt fail path yes := by
  intro yes
  induction yes with
  | nil => intro st; simp [procYear, yearErrCnt]
  | cons e rest ih =>
    intro st
    obtain ⟨n, node⟩ := e
    cases node with
    | file => simp [procYear, ih, yearErrCnt]
    | dir mes =>
      cases hd : isDigitName n with
      | false => simp [procYear, hd, ih, yearErrCnt]
      | true =>
        simp only [procYear, hd, if_true]
        rw [ih, procMonth_er]
        simp [yearErrCnt, hd]
        omega

theorem procYear_occ (fail : String → Bool) (path : String) :
    ∀ (yes : Entries) (st : MState),
    ∃ nf : Entries, (procYear fail path yes st).1.newFiles = st.newFiles ++ nf ∧
      (procYear fail path yes st).1.occ = st.occ ++ nf.map Prod.fst := by
  intro yes
  induction yes with
  | nil => intro st; exact ⟨[], by simp [procYear]⟩
  | cons e rest ih =>
    intro st
    obtain ⟨n, node⟩ := e
    cases node with
    | file =>
      obtain ⟨nf, h1, h2⟩ := ih st
      exact ⟨nf, by simp [procYear, h1, h2]⟩
    | dir mes =>
      cases hd : isDigitName n with
      | false =>
        obtain ⟨nf, h1, h2⟩ := ih st
        exact ⟨nf, by simp [procYear, hd, h1, h2]⟩
      | true =>
        obtain ⟨nf1, h1, h2⟩ := procMonth_occ fail (path ++ "/" ++ n) mes st
        obtain ⟨nf2, h3, h4⟩ := ih (procMonth fail (path ++ "/" ++ n) mes st).1
        refine ⟨nf1 ++ nf2, ?_, ?_⟩
        · simp only [procYear, hd, if_true]
          rw [h3, h1, List.append_assoc]
        · simp only [procYear, hd, if_true]
          rw [h4, h2, List.map_append, List.append_assoc]

theorem procYear_nodup (fail : String → Bool) (path : String) :
    ∀ (yes : Entries) (st : MState),
    st.occ.Nodup → (procYear fail path yes st).1.occ.Nodup := by
  intro yes
  induction yes with
  | nil => intro st h; simpa [procYear] using h
  | cons e rest ih =>
    intro st h
    obtain ⟨n, node⟩ := e
    cases node with
    | file => simpa [procYear] using ih st h
    | dir mes =>
      cases hd : isDigitName n with
      | false => simpa [procYear, hd] using ih st h
      | true =>
        simp only [procYear, hd, if_true]
        exact ih _ (procMonth_nodup fail (path ++ "/" ++ n) mes st h)

theorem procYear_names (fail : String → Bool) (path : String) :
    ∀ (yes : Entries) (st : MState),
    (procYear fail path yes st).2.map Prod.fst = yes.map Prod.fst := by
  intro yes
  induction yes with
  | nil => intro st; simp [procYear]
  | cons e rest ih =>
    intro st
    obtain ⟨n, node⟩ := e
    cases node with
    | file => simp [procYear, ih]
    | dir mes =>
      cases hd : isDigitName n with
      | false => simp [procYear, hd, ih]
      | true => simp [procYear, hd, ih]

theorem procYear_mem_keep (fail : String → Bool) (path : String) :
    ∀ (yes : Entries) (st : MState) (e : String × Node), e ∈ yes →
    (match e.2 with
     | Node.file => True
     | Node.dir _ => isDigitName e.1 = false) →
    e ∈ (procYear fail path yes st).2 := by
  intro yes
  induction yes with
  | nil => intro st e he _; exact absurd he (List.not_mem_nil e)
  | cons a rest ih =>
    intro st e he hcond
    obtain ⟨n, node⟩ := a
    rcases List.mem_cons.mp he with he1 | he2
    · subst he1
      cases node with
      | file => simp [procYear]
      | dir mes =>
        simp only at hcond
        simp [procYear, hcond]
    · cases node with
      | file => simp only [procYear]; exact List.mem_cons_of_mem _ (ih st e he2 hcond)
      | dir mes =>
        cases hd : isDigitName n with
        | false =>
          simp only [procYear, hd, if_false, Bool.false_eq_true]
          exact List.mem_cons_of_mem _ (ih st e he2 hcond)
        | true =>
          simp only [procYear, hd, if_true]
          exact List.mem_cons_of_mem _ (ih _ e he2 hcond)

theorem procYear_numdir (fail : String → Bool) (path : String) :
    ∀ (yes : Entries) (st : MState) (e : String × Node),
    e ∈ (procYear fail path yes st).2 → ∀ mes1, e.2 = Node.dir mes1 →
    isDigitName e.1 = true →
    ∃ mes0 st0, mes1 = (procMonth fail (path ++ "/" ++ e.1) mes0 st0).2 := by
  intro yes
  induction yes with
  | nil => intro st e he; simp [procYear] at he
  | cons a rest ih =>
    intro st e he mes1 hdir hdig
    obtain ⟨n, node⟩ := a
    cases node with
    | file =>
      simp only [procYear] at he
      rcases List.mem_cons.mp he with he1 | he2
      · subst he1; simp at hdir
      · exact ih st e he2 mes1 hdir hdig
    | dir mes =>
      cases hd : isDigitName n with
      | false =>
        simp only [procYear, hd, if_false, Bool.false_eq_true] at he
        rcases List.mem_cons.mp he with he1 | he2
        · subst he1
          simp only at hdir hdig
          rw [hdig] at hd
          exact absurd hd (by simp)
        · exact ih st e he2 mes1 hdir hdig
      | true =>
        simp only [procYear, hd, if_true] at he
        rcases List.mem_cons.mp he with he1 | he2
        · subst he1
          simp only at hdir hdig ⊢
          cases hdir
          exact ⟨mes, st, rfl⟩
        · exact ih _ e he2 mes1 hdir hdig

/-! ### Destination names are never purely numeric -/

theorem isDigitName_false_of_mem (s : String) (c : Char) (hc : c ∈ s.data)
    (hd : c.isDigit = false) : isDigitName s = false := by
  cases hall : s.data.all Char.isDigit with
  | false => simp [isDigitName, hall]
  | true =>
    have := List.all_eq_true.mp hall c hc
    rw [hd] at this
    exact absurd this (by simp)

theorem digitName_ne_of_dot (m f : String) (hm : isDigitName m = true)
    (hf : '.' ∈ f.data) : m ≠ f := by
  intro he
  subst he
  rw [isDigitName_false_of_mem m '.' hf (by decide)] at hm
  exact absurd hm (by simp)

theorem isJpg_has_dot (name : String) (h : isJpgMatch name = true) : '.' ∈ name.data := by
  have hd := of_decide_eq_true h
  have : '.' ∈ name.data.drop (name.data.length - 4) := by
    rw [hd]
    simp [String.data]
  exact List.mem_of_mem_drop this

theorem findFree_has_underscore (occupied : List String) (stem sfx : String) :
    ∀ fuel k, '_' ∈ (findFree occupied stem sfx fuel k).data := by
  have hcand : ∀ k, '_' ∈ (candName stem sfx k).data := by
    intro k
    simp only [candName, string_data_append]
    refine List.mem_append.mpr (Or.inl ?_)
    refine List.mem_append.mpr (Or.inl ?_)
    refine List.mem_append.mpr (Or.inr ?_)
    simp [String.data]
  intro fuel
  induction fuel with
  | zero => intro k; exact hcand k
  | succ n ih =>
    intro k
    rw [findFree]
    by_cases hmem : candName stem sfx k ∈ occupied
    · rw [if_pos hmem]; exact ih (k + 1)
    · rw [if_neg hmem]; exact hcand k

theorem resolveDest_nonDigit (occupied : List String) (name : String)
    (h : isJpgMatch name = true) : isDigitName (resolveDest occupied name) = false := by
  rw [resolveDest]
  by_cases hmem : name ∈ occupied
  · rw [if_pos hmem]
    exact isDigitName_false_of_mem _ '_'
      (findFree_has_underscore occupied (pyStem name) (pySuffix name) _ 1) (by decide)
  · rw [if_neg hmem]
    exact isDigitName_false_of_mem _ '.' (isJpg_has_dot name h) (by decide)

theorem procDay_newFiles_nondigit (fail : String → Bool) (path : String) :
    ∀ (des : Entries) (st : MState),
    (∀ e ∈ st.newFiles, isDigitName e.1 = false) →
    ∀ e ∈ (procDay fail path des st).1.newFiles, isDigitName e.1 = false := by
  intro des
  induction des with
  | nil => intro st h; simpa [procDay] using h
  | cons a rest ih =>
    intro st h
    cases hm : isJpgMatch a.1 with
    | false => simpa [procDay, hm] using ih st h
    | true =>
      cases hf : fail (path ++ "/" ++ a.1) with
      | false =>
        simp only [procDay, hm, hf, if_true, if_false, Bool.false_eq_true]
        apply ih
        intro e he
        rcases List.mem_append.mp he with h1 | h2
        · exact h e h1
        · simp only [List.mem_singleton] at h2
          subst h2
          exact resolveDest_nonDigit st.occ a.1 hm
      | true =>
        simpa [procDay, hm, hf] using ih { st with er := st.er + 1 } h

theorem procMonth_newFiles_nondigit (fail : String → Bool) (path : String) :
    ∀ (mes : Entries) (st : MState),
    (∀ e ∈ st.newFiles, isDigitName e.1 = false) →
    ∀ e ∈ (procMonth fail path mes st).1.newFiles, isDigitName e.1 = false := by
  intro mes
  induction mes with
  | nil => intro st h; simpa [procMonth] using h
  | cons a rest ih =>
    intro st h
    obtain ⟨n, node⟩ := a
    cases node with
    | file => simpa [procMonth] using ih st h
    | dir des =>
      cases hd : isDigitName n with
      | false => simpa [procMonth, hd] using ih st h
      | true =>
        simp only [procMonth, hd, if_true]
        exact ih _ (procDay_newFiles_nondigit fail (path ++ "/" ++ n) des st h)

theorem procYear_newFiles_nondigit (fail : String → Bool) (path : String) :
    ∀ (yes : Entries) (st : MState),
    (∀ e ∈ st.newFiles, isDigitName e.1 = false) →
    ∀ e ∈ (procYear fail path yes st).1.newFiles, isDigitName e.1 = false := by
  intro yes
  induction yes with
  | nil => intro st h; simpa [procYear] using h
  | cons a rest ih =>
    intro st h
    obtain ⟨n, node⟩ := a
    cases node with
    | file => simpa [procYear] using ih st h
    | dir mes =>
      cases hd : isDigitName n with
      | false => simpa [procYear, hd] using ih st h
      | true =>
        simp only [procYear, hd, if_true]
        exact ih _ (procMonth_newFiles_nondigit fail (path ++ "/" ++ n) mes st h)

/-! ### Move-phase invariants: whole years and the root -/

theorem migrateYear_mv (fail : String → Bool) (yname : String) (yes : Entries) :
    (migrateYear fail yname yes).2.1 = yearOkCnt fail yname yes := by
  simp [migrateYear, procYear_mv]

theorem migrateYear_er (fail : String → Bool) (yname : String) (yes : Entries) :
    (migrateYear fail yname yes).2.2 = yearErrCnt fail yname yes := by
  simp [migrateYear, procYear_er]

theorem migrateYear_nodup (fail : String → Bool) (yname : String) (yes : Entries)
    (h : (yes.map Prod.fst).Nodup) :
    ((migrateYear fail yname yes).1.map Prod.fst).Nodup := by
  simp only [migrateYear]
  obtain ⟨nf, h1, h2⟩ :=
    procYear_occ fail yname yes { occ := yes.map Prod.fst, newFiles := [], mv := 0, er := 0 }
  have hocc := procYear_nodup fail yname yes
    { occ := yes.map Prod.fst, newFiles := [], mv := 0, er := 0 } h
  rw [h2] at hocc
  rw [List.map_append, procYear_names, h1]
  simpa using hocc

theorem migrateYear_mem_keep (fail : String → Bool) (yname : String) (yes : Entries)
    (e : String × Node) (he : e ∈ yes)
    (hcond : match e.2 with
     | Node.file => True
     | Node.dir _ => isDigitName e.1 = false) :
    e ∈ (migrateYear fail yname yes).1 := by
  simp only [migrateYear]
  exact List.mem_append.mpr (Or.inl (procYear_mem_keep fail yname yes _ e he hcond))

theorem migrateYear_numdir (fail : String → Bool) (yname : String) (yes : Entries)
    (e : String × Node) (he : e ∈ (migrateYear fail yname yes).1)
    (mes1 : Entries) (hdir : e.2 = Node.dir mes1) (hdig : isDigitName e.1 = true) :
    ∃ mes0 st0, mes1 = (procMonth fail (yname ++ "/" ++ e.1) mes0 st0).2 := by
  simp only [migrateYear] at he
  rcases List.mem_append.mp he with h1 | h2
  · exact procYear_numdir fail yname yes _ e h1 mes1 hdir hdig
  · have := procYear_newFiles_nondigit fail yname yes
      { occ := yes.map Prod.fst, newFiles := [], mv := 0, er := 0 } (by simp) e h2
    rw [hdig] at this
    exact absurd this (by simp)

theorem procRoot_mv (fail : String → Bool) :
    ∀ es : Entries, (procRoot fail es).2.1 = rootOkCnt fail es := by
  intro es
  induction es with
  | nil => simp [procRoot, rootOkCnt]
  | cons e rest ih =>
    obtain ⟨n, node⟩ := e
    cases node with
    | file => simp [procRoot, ih, rootOkCnt]
    | dir yes =>
      cases hd : isDigitName n with
      | false => simp [procRoot, hd, ih, rootOkCnt]
      | true => simp [procRoot, hd, ih, rootOkCnt, migrateYear_mv]

theorem procRoot_er (fail : String → Bool) :
    ∀ es : Entries, (procRoot fail es).2.2 = rootErrCnt fail es := by
  intro es
  induction es with
  | nil => simp [procRoot, rootErrCnt]
  | cons e rest ih =>
    obtain ⟨n, node⟩ := e
    cases node with
    | file => simp [procRoot, ih, rootErrCnt]
    | dir yes =>
      cases hd : isDigitName n with
      | false => simp [procRoot, hd, ih, rootErrCnt]
      | true => simp [procRoot, hd, ih, rootErrCnt, migrateYear_er]

theorem procRoot_names (fail : String → Bool) :
    ∀ es : Entries, (procRoot fail es).1.map Prod.fst = es.map Prod.fst := by
  intro es
  induction es with
  | nil => simp [procRoot]
  | cons e rest ih =>
    obtain ⟨n, node⟩ := e
    cases node with
    | file => simp [procRoot, ih]
    | dir yes =>
      cases hd : isDigitName n with
      | false => simp [procRoot, hd, ih]
      | true => simp [procRoot, hd, ih]

theorem procRoot_mem_keep (fail : String → Bool) :
    ∀ (es : Entries) (e : String × Node), e ∈ es →
    (match e.2 with
     | Node.file => True
     | Node.dir _ => isDigitName e.1 = false) →
    e ∈ (procRoot fail es).1 := by
  intro es
  induction es with
  | nil => intro e he _; exact absurd he (List.not_mem_nil e)
  | cons a rest ih =>
    intro e he hcond
    obtain ⟨n, node⟩ := a
    rcases List.mem_cons.mp he with he1 | he2
    · subst he1
      cases node with
      | file => simp [procRoot]
      | dir yes =>
        simp only at hcond
        simp [procRoot, hcond]
    · cases node with
      | file => simp only [procRoot]; exact List.mem_cons_of_mem _ (ih e he2 hcond)
      | dir yes =>
        cases hd : isDigitName n with
        | false =>
          simp only [procRoot, hd, if_false, Bool.false_eq_true]
          exact List.mem_cons_of_mem _ (ih e he2 hcond)
        | true =>
          simp only [procRoot, hd, if_true]
          exact List.mem_cons_of_mem _ (ih e he2 hcond)

theorem procRoot_numdir (fail : String → Bool) :
    ∀ (es : Entries) (e : String × Node), e ∈ (procRoot fail es).1 →
    ∀ yes1, e.2 = Node.dir yes1 → isDigitName e.1 = true →
    ∃ yes0, (e.1, Node.dir yes0) ∈ es ∧ yes1 = (migrateYear fail e.1 yes0).1 := by
  intro es
  induction es with
  | nil => intro e he; simp [procRoot] at he
  | cons a rest ih =>
    intro e he yes1 hdir hdig
    obtain ⟨n, node⟩ := a
    cases node with
    | file =>
      simp only [procRoot] at he
      rcases List.mem_cons.mp he with he1 | he2
      · subst he1; simp at hdir
      · obtain ⟨yes0, ha, hb⟩ := ih e he2 yes1 hdir hdig
        exact ⟨yes0, List.mem_cons_of_mem _ ha, hb⟩
    | dir yes =>
      cases hd : isDigitName n with
      | false =>
        simp only [procRoot, hd, if_false, Bool.false_eq_true] at he
        rcases List.mem_cons.mp he with he1 | he2
        · subst he1
          simp only at hdir hdig
          rw [hdig] at hd
          exact absurd hd (by simp)
        · obtain ⟨yes0, ha, hb⟩ := ih e he2 yes1 hdir hdig
          exact ⟨yes0, List.mem_cons_of_mem _ ha, hb⟩
      | true =>
        simp only [procRoot, hd, if_true] at he
        rcases List.mem_cons.mp he with he1 | he2
        · subst he1
          simp only at hdir hdig ⊢
          cases hdir
          exact ⟨yes, List.mem_cons_self _ _, rfl⟩
        · obtain ⟨yes0, ha, hb⟩ := ih e he2 yes1 hdir hdig
          exact ⟨yes0, List.mem_cons_of_mem _ ha, hb⟩

/-! ### Successes plus failures account for every matching file -/

theorem length_filter_split {α : Type} (p q : α → Bool) :
    ∀ l : List α,
    (l.filter (fun x => p x && !q x)).length + (l.filter (fun x => p x && q x)).length =
      (l.filter p).length := by
  intro l
  induction l with
  | nil => simp
  | cons a rest ih =>
    cases hp : p a with
    | false => simp [List.filter_cons, hp, ih]
    | true =>
      cases hq : q a with
      | false =>
        simp only [List.filter_cons, hp, hq]
        simp only [Bool.not_false, Bool.and_true, Bool.and_false, Bool.true_and]
        simp [List.filter_cons, hp, hq, ← ih]
        omega
      | true =>
        simp only [List.filter_cons, hp, hq]
        simp [List.filter_cons, hp, hq, ← ih]
        omega

theorem day_split (fail : String → Bool) (path : String) (des : Entries) :
    dayOkCnt fail path des + dayErrCnt fail path des = dayJpgCnt des := by
  have := length_filter_split (fun (e : String × Node) => isJpgMatch e.1)
    (fun e => fail (path ++ "/" ++ e.1)) des
  simpa [dayOkCnt, dayErrCnt, dayJpgCnt] using this

theorem month_split (fail : String → Bool) (path : String) :
    ∀ mes : Entries,
    monthOkCnt fail path mes + monthErrCnt fail path mes = monthJpgCnt mes := by
  intro mes
  induction mes with
  | nil => simp [monthOkCnt, monthErrCnt, monthJpgCnt]
  | cons d rest ih =>
    obtain ⟨dn, node⟩ := d
    cases node with
    | file =>
      simp only [monthOkCnt, monthErrCnt, monthJpgCnt, List.map_cons, List.sum_cons] at *
      omega
    | dir des =>
      cases hd : isDigitName dn with
      | false =>
        simp only [monthOkCnt, monthErrCnt, monthJpgCnt, List.map_cons, List.sum_cons, hd] at *
        simp only [if_false, Bool.false_eq_true] at *
        omega
      | true =>
        simp only [monthOkCnt, monthErrCnt, monthJpgCnt, List.map_cons, List.sum_cons, hd,
          if_true] at *
        have := day_split fail (path ++ "/" ++ dn) des
        omega

theorem year_split (fail : String → Bool) (path : String) :
    ∀ yes : Entries,
    yearOkCnt fail path yes + yearErrCnt fail path yes = yearJpgCnt yes := by
  intro yes
  induction yes with
  | nil => simp [yearOkCnt, yearErrCnt, yearJpgCnt]
  | cons m rest ih =>
    obtain ⟨mn, node⟩ := m
    cases node with
    | file =>
      simp only [yearOkCnt, yearErrCnt, yearJpgCnt, List.map_cons, List.sum_cons] at *
      omega
    | dir mes =>
      cases hd : isDigitName mn with
      | false =>
        simp only [yearOkCnt, yearErrCnt, yearJpgCnt, List.map_cons, List.sum_cons, hd] at *
        simp only [if_false, Bool.false_eq_true] at *
        omega
      | true =>
        simp only [yearOkCnt, yearErrCnt, yearJpgCnt, List.map_cons, List.sum_cons, hd,
          if_true] at *
        have := month_split fail (path ++ "/" ++ mn) mes
        omega

theorem root_split (fail : String → Bool) :
    ∀ es : Entries, rootOkCnt fail es + rootErrCnt fail es = countNested es := by
  intro es
  induction es with
  | nil => simp [rootOkCnt, rootErrCnt, countNested]
  | cons y rest ih =>
    obtain ⟨yn, node⟩ := y
    cases node with
    | file =>
      simp only [rootOkCnt, rootErrCnt, countNested, List.map_cons, List.sum_cons] at *
      omega
    | dir yes =>
      cases hd : isDigitName yn with
      | false =>
        simp only [rootOkCnt, rootErrCnt, countNested, List.map_cons, List.sum_cons, hd] at *
        simp only [if_false, Bool.false_eq_true] at *
        omega
      | true =>
        simp only [rootOkCnt, rootErrCnt, countNested, List.map_cons, List.sum_cons, hd,
          if_true] at *
        have := year_split fail yn yes
        omega

theorem cleanup_moved (fail : String → Bool) (es : Entries) :
    (cleanup_photo_structure fail es).moved = rootOkCnt fail es := by
  simp [cleanup_photo_structure, procRoot_mv]

theorem cleanup_errs (fail : String → Bool) (es : Entries) :
    (cleanup_photo_structure fail es).errs = rootErrCnt fail es := by
  simp [cleanup_photo_structure, procRoot_er]

theorem cleanup_moved_add_errs (fail : String → Bool) (es : Entries) :
    (cleanup_photo_structure fail es).moved + (cleanup_photo_structure fail es).errs =
      countNested es := by
  rw [cleanup_moved, cleanup_errs, root_split]

/-! ### Pruning-phase lemmas -/

theorem pruneMonth_mem (mes : Entries) (e : String × Node) (h : e ∈ pruneMonth mes) :
    e ∈ mes :=
  (List.mem_filter.mp h).1

theorem pruneMonth_dir_ne_nil (mes : Entries) (d : String) (ds : Entries)
    (h : (d, Node.dir ds) ∈ pruneMonth mes) : ds ≠ [] := by
  have hp := (List.mem_filter.mp h).2
  intro hnil
  subst hnil
  simp at hp

theorem pruneMonth_mem_of (mes : Entries) (e : String × Node) (he : e ∈ mes)
    (hcond : match e.2 with
     | Node.dir [] => False
     | _ => True) : e ∈ pruneMonth mes := by
  refine List.mem_filter.mpr ⟨he, ?_⟩
  obtain ⟨n, node⟩ := e
  cases node with
  | file => simp
  | dir des =>
    cases des with
    | nil => simp at hcond
    | cons a rest => simp

theorem pruneYear_names_sublist (yes : Entries) :
    List.Sublist ((pruneYear yes).map Prod.fst) (yes.map Prod.fst) := by
  induction yes with
  | nil => simp [pruneYear]
  | cons a rest ih =>
    obtain ⟨n, node⟩ := a
    cases node with
    | file =>
      simp only [pruneYear, List.filterMap_cons] at *
      exact List.Sublist.cons₂ n ih
    | dir mes =>
      by_cases hd : isDigitName n
      · simp only [pruneYear, List.filterMap_cons, hd, if_true] at *
        by_cases hemp : (pruneMonth mes).isEmpty
        · simp only [hemp, if_true]
          exact List.Sublist.cons n ih
        · simp only [hemp, if_false, Bool.false_eq_true]
          exact List.Sublist.cons₂ n ih
      · simp only [pruneYear, List.filterMap_cons, hd, if_false, Bool.false_eq_true] at *
        exact List.Sublist.cons₂ n ih

theorem pruneYear_mem_of (yes : Entries) (e : String × Node) (he : e ∈ yes)
    (hcond : match e.2 with
     | Node.file => True
     | Node.dir _ => isDigitName e.1 = false) : e ∈ pruneYear yes := by
  refine List.mem_filterMap.mpr ⟨e, he, ?_⟩
  obtain ⟨n, node⟩ := e
  cases node with
  | file => rfl
  | dir mes =>
    simp only at hcond
    simp [hcond]

theorem pruneYear_numdir_shape (yes : Entries) (m : String) (mes : Entries)
    (h : (m, Node.dir mes) ∈ pruneYear yes) (hd : isDigitName m = true) :
    mes ≠ [] ∧ ∃ mes0, (m, Node.dir mes0) ∈ yes ∧ mes = pruneMonth mes0 := by
  obtain ⟨a, ha, hfa⟩ := List.mem_filterMap.mp h
  obtain ⟨n, node⟩ := a
  cases node with
  | file => simp [pruneYear] at hfa
  | dir mes0 =>
    by_cases hdn : isDigitName n
    · simp only [hdn, if_true] at hfa
      by_cases hemp : (pruneMonth mes0).isEmpty
      · simp [hemp] at hfa
      · simp only [hemp, if_false, Bool.false_eq_true, Option.some.injEq] at hfa
        obtain ⟨h1, h2⟩ := Prod.mk.injEq .. ▸ (by exact hfa : (n, Node.dir (pruneMonth mes0)) = (m, Node.dir mes))
        cases h2
        cases h1
        refine ⟨?_, mes0, ha, rfl⟩
        intro hnil
        rw [hnil] at hemp
        exact hemp rfl
    · simp only [hdn, if_false, Bool.false_eq_true, Option.some.injEq] at hfa
      obtain ⟨h1, h2⟩ := Prod.mk.injEq .. ▸ (by exact hfa : ((n : String), Node.dir mes0) = (m, Node.dir mes))
      cases h1
      rw [hd] at hdn
      exact absurd rfl hdn

theorem prunePhase_names (es : Entries) :
    (prunePhase es).map Prod.fst = es.map Prod.fst := by
  induction es with
  | nil => simp [prunePhase]
  | cons a rest ih =>
    obtain ⟨n, node⟩ := a
    cases node with
    | file => simpa [prunePhase] using ih
    | dir yes =>
      by_cases hd : isDigitName n
      · simpa [prunePhase, hd] using ih
      · simpa [prunePhase, hd] using ih

theorem prunePhase_mem_of (es : Entries) (e : String × Node) (he : e ∈ es)
    (hcond : match e.2 with
     | Node.file => True
     | Node.dir _ => isDigitName e.1 = false) : e ∈ prunePhase es := by
  refine List.mem_map.mpr ⟨e, he, ?_⟩
  obtain ⟨n, node⟩ := e
  cases node with
  | file => rfl
  | dir yes =>
    simp only at hcond
    simp [hcond]

theorem prunePhase_numdir (es : Entries) (e : String × Node) (he : e ∈ prunePhase es)
    (yes : Entries) (hdir : e.2 = Node.dir yes) (hdig : isDigitName e.1 = true) :
    ∃ yes0, (e.1, Node.dir yes0) ∈ es ∧ yes = pruneYear yes0 := by
  obtain ⟨a, ha, hfa⟩ := List.mem_map.mp he
  obtain ⟨n, node⟩ := a
  cases node with
  | file =>
    subst hfa
    simp at hdir
  | dir yes0 =>
    by_cases hdn : isDigitName n
    · simp only [hdn, if_true] at hfa
      subst hfa
      simp only at hdir hdig ⊢
      cases hdir
      exact ⟨yes0, ha, rfl⟩
    · simp only [hdn, if_false, Bool.false_eq_true] at hfa
      subst hfa
      simp only at hdir hdig ⊢
      cases hdir
      rw [hdig] at hdn
      exact absurd rfl hdn

/-! ### After a failure-free run no nested photo remains -/

theorem filter_not_filter {α : Type} (p : α → Bool) :
    ∀ l : List α, (l.filter (fun x => !p x)).filter p = [] := by
  intro l
  induction l with
  | nil => simp
  | cons a rest ih =>
    cases hp : p a with
    | false => simp [List.filter_cons, hp, ih]
    | true => simp [List.filter_cons, hp, ih]

theorem dayJpg_procDay_zero (path : String) (des : Entries) (st : MState) :
    dayJpgCnt ((procDay noFail path des st).2) = 0 := by
  rw [procDay_rem, dayJpgCnt]
  have : (fun (e : String × Node) => !(isJpgMatch e.1 && !noFail (path ++ "/" ++ e.1))) =
      (fun e => !(isJpgMatch e.1)) := by
    funext e
    simp [noFail]
  rw [this, filter_not_filter]
  rfl

theorem monthJpg_prune_procMonth_zero (path : String) (mes : Entries) (st : MState) :
    monthJpgCnt (pruneMonth ((procMonth noFail path mes st).2)) = 0 := by
  rw [monthJpgCnt]
  apply List.sum_eq_zero
  intro x hx
  obtain ⟨d, hd, hdx⟩ := List.mem_map.mp hx
  obtain ⟨dn, node⟩ := d
  cases node with
  | file => simp at hdx; omega
  | dir ds =>
    by_cases hdig : isDigitName dn
    · have hmem := pruneMonth_mem _ _ hd
      obtain ⟨des0, st0, hds⟩ :=
        procMonth_numdir noFail path mes st (dn, Node.dir ds) hmem ds rfl hdig
      subst hdx
      simp only [hdig, if_true]
      rw [hds]
      exact dayJpg_procDay_zero _ _ _
    · subst hdx
      simp [hdig]

theorem yearJpg_prune_migrateYear_zero (yname : String) (yes : Entries) :
    yearJpgCnt (pruneYear ((migrateYear noFail yname yes).1)) = 0 := by
  rw [yearJpgCnt]
  apply List.sum_eq_zero
  intro x hx
  obtain ⟨m, hm, hmx⟩ := List.mem_map.mp hx
  obtain ⟨mn, node⟩ := m
  cases node with
  | file => simp at hmx; omega
  | dir mes =>
    by_cases hdig : isDigitName mn
    · obtain ⟨_, mes0, hmem, hmes⟩ := pruneYear_numdir_shape _ mn mes hm hdig
      obtain ⟨mes00, st0, hshape⟩ :=
        migrateYear_numdir noFail yname yes (mn, Node.dir mes0) hmem mes0 rfl hdig
      subst hmx
      simp only [hdig, if_true]
      rw [hmes, hshape]
      exact monthJpg_prune_procMonth_zero _ _ _
    · subst hmx
      simp [hdig]

theorem dayErrCnt_noFail (path : String) (des : Entries) : dayErrCnt noFail path des = 0 := by
  simp [dayErrCnt, noFail]

theorem monthErrCnt_noFail (path : String) (mes : Entries) : monthErrCnt noFail path mes = 0 := by
  rw [monthErrCnt]
  apply List.sum_eq_zero
  intro x hx
  obtain ⟨d, _, hdx⟩ := List.mem_map.mp hx
  obtain ⟨dn, node⟩ := d
  cases node with
  | file => simp at hdx; omega
  | dir des =>
    subst hdx
    by_cases hd : isDigitName dn
    · simp [hd, dayErrCnt_noFail]
    · simp [hd]

theorem yearErrCnt_noFail (path : String) (yes : Entries) : yearErrCnt noFail path yes = 0 := by
  rw [yearErrCnt]
  apply List.sum_eq_zero
  intro x hx
  obtain ⟨m, _, hmx⟩ := List.mem_map.mp hx
  obtain ⟨mn, node⟩ := m
  cases node with
  | file => simp at hmx; omega
  | dir mes =>
    subst hmx
    by_cases hd : isDigitName mn
    · simp [hd, monthErrCnt_noFail]
    · simp [hd]

theorem rootErrCnt_noFail (es : Entries) : rootErrCnt noFail es = 0 := by
  rw [rootErrCnt]
  apply List.sum_eq_zero
  intro x hx
  obtain ⟨y, _, hyx⟩ := List.mem_map.mp hx
  obtain ⟨yn, node⟩ := y
  cases node with
  | file => simp at hyx; omega
  | dir yes =>
    subst hyx
    by_cases hd : isDigitName yn
    · simp [hd, yearErrCnt_noFail]
    · simp [hd]

/-! ### The documented collision scenario, for arbitrary names -/

theorem scenario_two_files (y m1 d1 m2 d2 s : String)
    (hy : isDigitName y = true) (hm1 : isDigitName m1 = true)
    (hd1 : isDigitName d1 = true) (hm2 : isDigitName m2 = true)
    (hd2 : isDigitName d2 = true) (_hmm : m1 ≠ m2) (hs : s ≠ "") :
    (cleanup_photo_structure noFail
      [(y, Node.dir [(m1, Node.dir [(d1, Node.dir [(s ++ ".jpg", Node.file)])]),
                     (m2, Node.dir [(d2, Node.dir [(s ++ ".jpg", Node.file)])])])]).tree =
      [(y, Node.dir [(s ++ ".jpg", Node.file),
                     (s ++ "_" ++ padNat 3 1 ++ ".jpg", Node.file)])] ∧
    (cleanup_photo_structure noFail
      [(y, Node.dir [(m1, Node.dir [(d1, Node.dir [(s ++ ".jpg", Node.file)])]),
                     (m2, Node.dir [(d2, Node.dir [(s ++ ".jpg", Node.file)])])])]).moved = 2 := by
  have hjpg := isJpgMatch_append s
  have hfm1 : (s ++ ".jpg") ≠ m1 :=
    (digitName_ne_of_dot m1 (s ++ ".jpg") hm1 (dot_mem_jpg_append s)).symm
  have hfm2 : (s ++ ".jpg") ≠ m2 :=
    (digitName_ne_of_dot m2 (s ++ ".jpg") hm2 (dot_mem_jpg_append s)).symm
  have hmem0 : (s ++ ".jpg") ∉ [m1, m2] := by simp [hfm1, hfm2]
  have hr1 : resolveDest [m1, m2] (s ++ ".jpg") = s ++ ".jpg" := by
    rw [resolveDest, if_neg hmem0]
  have hcne1 : (s ++ "_" ++ padNat 3 1 ++ ".jpg") ∉ [m1, m2, s ++ ".jpg"] := by
    have h1 : (s ++ "_" ++ padNat 3 1 ++ ".jpg") ≠ m1 :=
      (digitName_ne_of_dot m1 _ hm1 (dot_mem_cand s 1)).symm
    have h2 : (s ++ "_" ++ padNat 3 1 ++ ".jpg") ≠ m2 :=
      (digitName_ne_of_dot m2 _ hm2 (dot_mem_cand s 1)).symm
    simp [h1, h2, cand_ne_jpg_append s 1]
  have hr2 : resolveDest [m1, m2, s ++ ".jpg"] (s ++ ".jpg") =
      s ++ "_" ++ padNat 3 1 ++ ".jpg" := by
    obtain ⟨k, hk1, hkfree, hleast, heq⟩ :=
      (resolveDest_spec [m1, m2, s ++ ".jpg"] (s ++ ".jpg")).2 (by simp)
    have hk : k = 1 := by
      by_contra hne
      have hlt : (1 : Nat) < k := by omega
      have := hleast 1 (le_refl 1) hlt
      rw [pyStem_jpg s hs, pySuffix_jpg s hs] at this
      exact hcne1 this
    subst hk
    rw [heq, pyStem_jpg s hs, pySuffix_jpg s hs]
    rfl
  have hD1 : ∀ path, procDay noFail path [(s ++ ".jpg", Node.file)]
      ⟨[m1, m2], [], 0, 0⟩ =
      (⟨[m1, m2, s ++ ".jpg"], [(s ++ ".jpg", Node.file)], 1, 0⟩, []) := by
    intro path
    simp [procDay, hjpg, noFail, hr1]
  have hD2 : ∀ path, procDay noFail path [(s ++ ".jpg", Node.file)]
      ⟨[m1, m2, s ++ ".jpg"], [(s ++ ".jpg", Node.file)], 1, 0⟩ =
      (⟨[m1, m2, s ++ ".jpg", s ++ "_" ++ padNat 3 1 ++ ".jpg"],
        [(s ++ ".jpg", Node.file), (s ++ "_" ++ padNat 3 1 ++ ".jpg", Node.file)], 2, 0⟩,
       []) := by
    intro path
    simp [procDay, hjpg, noFail, hr2]
  have hM1 : ∀ path, procMonth noFail path [(d1, Node.dir [(s ++ ".jpg", Node.file)])]
      ⟨[m1, m2], [], 0, 0⟩ =
      (⟨[m1, m2, s ++ ".jpg"], [(s ++ ".jpg", Node.file)], 1, 0⟩,
       [(d1, Node.dir [])]) := by
    intro path
    simp [procMonth, hd1, hD1]
  have hM2 : ∀ path, procMonth noFail path [(d2, Node.dir [(s ++ ".jpg", Node.file)])]
      ⟨[m1, m2, s ++ ".jpg"], [(s ++ ".jpg", Node.file)], 1, 0⟩ =
      (⟨[m1, m2, s ++ ".jpg", s ++ "_" ++ padNat 3 1 ++ ".jpg"],
        [(s ++ ".jpg", Node.file), (s ++ "_" ++ padNat 3 1 ++ ".jpg", Node.file)], 2, 0⟩,
       [(d2, Node.dir [])]) := by
    intro path
    simp [procMonth, hd2, hD2]
  have hY : procYear noFail y
      [(m1, Node.dir [(d1, Node.dir [(s ++ ".jpg", Node.file)])]),
       (m2, Node.dir [(d2, Node.dir [(s ++ ".jpg", Node.file)])])]
      ⟨[m1, m2], [], 0, 0⟩ =
      (⟨[m1, m2, s ++ ".jpg", s ++ "_" ++ padNat 3 1 ++ ".jpg"],
        [(s ++ ".jpg", Node.file), (s ++ "_" ++ padNat 3 1 ++ ".jpg", Node.file)], 2, 0⟩,
       [(m1, Node.dir [(d1, Node.dir [])]), (m2, Node.dir [(d2, Node.dir [])])]) := by
    simp [procYear, hm1, hm2, hM1, hM2]
  have hMY : migrateYear noFail y
      [(m1, Node.dir [(d1, Node.dir [(s ++ ".jpg", Node.file)])]),
       (m2, Node.dir [(d2, Node.dir [(s ++ ".jpg", Node.file)])])] =
      ([(m1, Node.dir [(d1, Node.dir [])]), (m2, Node.dir [(d2, Node.dir [])]),
        (s ++ ".jpg", Node.file), (s ++ "_" ++ padNat 3 1 ++ ".jpg", Node.file)], 2, 0) := by
    simp only [migrateYear, List.map_cons, List.map_nil]
    rw [hY]
    rfl
  have hRoot : procRoot noFail
      [(y, Node.dir [(m1, Node.dir [(d1, Node.dir [(s ++ ".jpg", Node.file)])]),
                     (m2, Node.dir [(d2, Node.dir [(s ++ ".jpg", Node.file)])])])] =
      ([(y, Node.dir [(m1, Node.dir [(d1, Node.dir [])]),
                      (m2, Node.dir [(d2, Node.dir [])]),
                      (s ++ ".jpg", Node.file),
                      (s ++ "_" ++ padNat 3 1 ++ ".jpg", Node.file)])], 2, 0) := by
    simp [procRoot, hy, hMY]
  constructor
  · show prunePhase (procRoot noFail _).1 = _
    rw [hRoot]
    simp [prunePhase, hy, pruneYear, pruneMonth, hm1, hm2, List.filterMap_cons,
      List.filter_cons]
  · show (procRoot noFail _).2.1 = 2
    rw [hRoot]

/-! ### Lifting the per-year facts to the whole migration -/

theorem procRoot_numdir_mem (fail : String → Bool) :
    ∀ (es : Entries) (y : String) (yes : Entries), (y, Node.dir yes) ∈ es →
    isDigitName y = true →
    (y, Node.dir (migrateYear fail y yes).1) ∈ (procRoot fail es).1 := by
  intro es
  induction es with
  | nil => intro y yes h; exact absurd h (List.not_mem_nil _)
  | cons a rest ih =>
    intro y yes h hdig
    obtain ⟨n, node⟩ := a
    rcases List.mem_cons.mp h with h1 | h2
    · obtain ⟨h1a, h1b⟩ := Prod.mk.injEq .. ▸ h1
      cases h1a
      cases h1b
      simp [procRoot, hdig]
    · cases node with
      | file =>
        simp only [procRoot]
        exact List.mem_cons_of_mem _ (ih y yes h2 hdig)
      | dir yes2 =>
        cases hd : isDigitName n with
        | false =>
          simp only [procRoot, hd, if_false, Bool.false_eq_true]
          exact List.mem_cons_of_mem _ (ih y yes h2 hdig)
        | true =>
          simp only [procRoot, hd, if_true]
          exact List.mem_cons_of_mem _ (ih y yes h2 hdig)

theorem prunePhase_numdir_mem (es : Entries) (y : String) (yes : Entries)
    (h : (y, Node.dir yes) ∈ es) (hdig : isDigitName y = true) :
    (y, Node.dir (pruneYear yes)) ∈ prunePhase es := by
  refine List.mem_map.mpr ⟨(y, Node.dir yes), h, ?_⟩
  simp [hdig]

/-- Migration never introduces a duplicate filename in any numeric year
directory. -/
theorem yearNodup_preserved (fail : String → Bool) (es : Entries)
    (h : ∀ (p : String × Node) (yes : Entries), p ∈ es → p.2 = Node.dir yes →
      isDigitName p.1 = true → (yes.map Prod.fst).Nodup) :
    ∀ (p : String × Node) (yes : Entries), p ∈ (cleanup_photo_structure fail es).tree →
      p.2 = Node.dir yes → isDigitName p.1 = true → (yes.map Prod.fst).Nodup := by
  intro p yes hp hdir hdig
  obtain ⟨yes1, hmem1, hyes1⟩ :=
    prunePhase_numdir (procRoot fail es).1 p hp yes hdir hdig
  obtain ⟨yes0, hmem0, hyes0⟩ :=
    procRoot_numdir fail es (p.1, Node.dir yes1) hmem1 yes1 rfl hdig
  have hnod0 : (yes0.map Prod.fst).Nodup := h (p.1, Node.dir yes0) yes0 hmem0 rfl hdig
  have hnod1 : (yes1.map Prod.fst).Nodup := by
    rw [hyes0]
    exact migrateYear_nodup fail p.1 yes0 hnod0
  rw [hyes1]
  exact hnod1.sublist (pruneYear_names_sublist yes1)

/-- A month-level entry that the traversal skips survives the whole
migration inside its (numeric) year directory. -/
theorem month_entry_keep (fail : String → Bool) (es : Entries) (y : String)
    (yes : Entries) (hyy : (y, Node.dir yes) ∈ es) (hdig : isDigitName y = true)
    (e : String × Node) (he : e ∈ yes)
    (hcond : match e.2 with
     | Node.file => True
     | Node.dir _ => isDigitName e.1 = false) :
    ∃ yes2, (y, Node.dir yes2) ∈ (cleanup_photo_structure fail es).tree ∧ e ∈ yes2 := by
  refine ⟨pruneYear (migrateYear fail y yes).1, ?_, ?_⟩
  · exact prunePhase_numdir_mem (procRoot fail es).1 y (migrateYear fail y yes).1
      (procRoot_numdir_mem fail es y yes hyy hdig) hdig
  · exact pruneYear_mem_of (migrateYear fail y yes).1 e
      (migrateYear_mem_keep fail y yes e he hcond) hcond

/-- After migration, inside every numeric year directory, no numeric month
directory is empty and no directory inside a numeric month directory is
empty. -/
theorem no_empty_dirs_final (fail : String → Bool) (es : Entries) :
    ∀ (y : String) (yes : Entries), (y, Node.dir yes) ∈ (cleanup_photo_structure fail es).tree →
    isDigitName y = true →
    ∀ (m : String) (mes : Entries), (m, Node.dir mes) ∈ yes → isDigitName m = true →
    mes ≠ [] ∧ ∀ (d : String) (ds : Entries), (d, Node.dir ds) ∈ mes → ds ≠ [] := by
  intro y yes hp hdig m mes hm hmdig
  obtain ⟨yes1, _, hyes1⟩ :=
    prunePhase_numdir (procRoot fail es).1 (y, Node.dir yes) hp yes rfl hdig
  subst hyes1
  obtain ⟨hne, mes0, _, hmes⟩ := pruneYear_numdir_shape yes1 m mes hm hmdig
  subst hmes
  exact ⟨hne, fun d ds hd => pruneMonth_dir_ne_nil mes0 d ds hd⟩

theorem cleanup_names (fail : String → Bool) (es : Entries) :
    (cleanup_photo_structure fail es).tree.map Prod.fst = es.map Prod.fst := by
  show (prunePhase (procRoot fail es).1).map Prod.fst = _
  rw [prunePhase_names, procRoot_names]

theorem root_entry_keep (fail : String → Bool) (es : Entries) (e : String × Node)
    (he : e ∈ es)
    (hcond : match e.2 with
     | Node.file => True
     | Node.dir _ => isDigitName e.1 = false) :
    e ∈ (cleanup_photo_structure fail es).tree :=
  prunePhase_mem_of (procRoot fail es).1 e (procRoot_mem_keep fail es e he hcond) hcond

/-- The flatness test of the claimed idempotence: no purely-numeric day
directory remains inside any numeric month directory of a numeric year
directory. -/
def noNestedDayDirs (es : Entries) : Bool :=
  es.all (fun y =>
    match y with
    | (yn, Node.dir yes) =>
      !isDigitName yn ||
      yes.all (fun m =>
        match m with
        | (mn, Node.dir mes) =>
          !isDigitName mn ||
          mes.all (fun d =>
            match d with
            | (dn, Node.dir _) => !isDigitName dn
            | _ => true)
        | _ => true)
    | _ => true)

theorem countNested_zero_of_noNested (es : Entries) (h : noNestedDayDirs es = true) :
    countNested es = 0 := by
  rw [countNested]
  apply List.sum_eq_zero
  intro x hx
  obtain ⟨y, hy, hyx⟩ := List.mem_map.mp hx
  obtain ⟨yn, node⟩ := y
  cases node with
  | file => simp at hyx; omega
  | dir yes =>
    subst hyx
    by_cases hdig : isDigitName yn
    · simp only [hdig, if_true]
      have hy2 := List.all_eq_true.mp h _ hy
      simp only [hdig, Bool.not_true, Bool.false_or] at hy2
      rw [yearJpgCnt]
      apply List.sum_eq_zero
      intro z hz
      obtain ⟨m, hm, hmz⟩ := List.mem_map.mp hz
      obtain ⟨mn, mnode⟩ := m
      cases mnode with
      | file => simp at hmz; omega
      | dir mes =>
        subst hmz
        by_cases hmdig : isDigitName mn
        · simp only [hmdig, if_true]
          have hm2 := List.all_eq_true.mp hy2 _ hm
          simp only [hmdig, Bool.not_true, Bool.false_or] at hm2
          rw [monthJpgCnt]
          apply List.sum_eq_zero
          intro w hw
          obtain ⟨d, hd, hdw⟩ := List.mem_map.mp hw
          obtain ⟨dn, dnode⟩ := d
          cases dnode with
          | file => simp at hdw; omega
          | dir des =>
            subst hdw
            have hd2 := List.all_eq_true.mp hm2 _ hd
            simp only [Bool.not_eq_true'] at hd2
            simp [hd2]
        · simp [hmdig]
    · simp [hdig]

theorem countNested_final_zero (es : Entries) :
    countNested ((cleanup_photo_structure noFail es).tree) = 0 := by
  rw [countNested]
  apply List.sum_eq_zero
  intro x hx
  obtain ⟨y, hy, hyx⟩ := List.mem_map.mp hx
  obtain ⟨yn, node⟩ := y
  cases node with
  | file => simp at hyx; omega
  | dir yes =>
    by_cases hdig : isDigitName yn
    · simp only [cleanup_photo_structure] at hy
      obtain ⟨yes1, hmem1, hyes1⟩ :=
        prunePhase_numdir _ (yn, Node.dir yes) hy yes rfl hdig
      obtain ⟨yes0, _, hyes0⟩ :=
        procRoot_numdir noFail _ (yn, Node.dir yes1) hmem1 yes1 rfl hdig
      subst hyx
      simp only [hdig, if_true]
      rw [hyes1, hyes0]
      exact yearJpg_prune_migrateYear_zero _ _
    · subst hyx
      simp [hdig]

/-! ### The claims -/

/-- Claim C1: on a destination-filename collision the migrator appends a
zero-padded 3-digit `_NNN` counter before the extension, starting at 1 and
incrementing until the name is free (first conjunct: the resolved name is the
original when free, otherwise the candidate with the least free counter);
for two files with identical names in two different day directories of the
same year, after migration both exist in the year directory, one with the
original name and the other suffixed `_001` (second conjunct); and filename
uniqueness within every numeric year directory is preserved (third
conjunct). -/
theorem claim_C1 :
    (∀ (occupied : List String) (name : String),
      (name ∉ occupied → resolveDest occupied name = name) ∧
      (name ∈ occupied → ∃ k, 1 ≤ k ∧
        candName (pyStem name) (pySuffix name) k ∉ occupied ∧
        (∀ j, 1 ≤ j → j < k → candName (pyStem name) (pySuffix name) j ∈ occupied) ∧
        resolveDest occupied name = candName (pyStem name) (pySuffix name) k)) ∧
    (∀ y m1 d1 m2 d2 s : String,
      isDigitName y = true → isDigitName m1 = true → isDigitName d1 = true →
      isDigitName m2 = true → isDigitName d2 = true → m1 ≠ m2 → s ≠ "" →
      (cleanup_photo_structure noFail
        [(y, Node.dir [(m1, Node.dir [(d1, Node.dir [(s ++ ".jpg", Node.file)])]),
                       (m2, Node.dir [(d2, Node.dir [(s ++ ".jpg", Node.file)])])])]).tree =
        [(y, Node.dir [(s ++ ".jpg", Node.file),
                       (s ++ "_" ++ padNat 3 1 ++ ".jpg", Node.file)])]) ∧
    (∀ (fail : String → Bool) (es : Entries),
      (∀ (p : String × Node) (yes : Entries), p ∈ es → p.2 = Node.dir yes →
        isDigitName p.1 = true → (yes.map Prod.fst).Nodup) →
      ∀ (p : String × Node) (yes : Entries), p ∈ (cleanup_photo_structure fail es).tree →
        p.2 = Node.dir yes → isDigitName p.1 = true → (yes.map Prod.fst).Nodup) :=
  ⟨resolveDest_spec,
   fun y m1 d1 m2 d2 s hy hm1 hd1 hm2 hd2 hmm hs =>
     (scenario_two_files y m1 d1 m2 d2 s hy hm1 hd1 hm2 hd2 hmm hs).1,
   yearNodup_preserved⟩

theorem claim_C1_witness :
    resolveDest [] "x.jpg" = "x.jpg" ∧
    (cleanup_photo_structure noFail
      [("2024", Node.dir [("01", Node.dir [("15", Node.dir [("shot.jpg", Node.file)])]),
                          ("02", Node.dir [("20", Node.dir [("shot.jpg", Node.file)])])])]).tree =
      [("2024", Node.dir [("shot.jpg", Node.file), ("shot_001.jpg", Node.file)])] ∧
    (([("shot.jpg", Node.file), ("shot_001.jpg", Node.file)] : Entries).map Prod.fst).Nodup := by
  refine ⟨(claim_C1.1 [] "x.jpg").1 (by simp), ?_, ?_⟩
  · have h := claim_C1.2.1 "2024" "01" "15" "02" "20" "shot"
      (by decide) (by decide) (by decide) (by decide) (by decide) (by decide) (by decide)
    exact h
  · have hnod : ∀ (p : String × Node) (yes : Entries),
        p ∈ ([("2024", Node.dir [("01", Node.dir [("15", Node.dir [("shot.jpg", Node.file)])]),
                                 ("02", Node.dir [("20", Node.dir [("shot.jpg", Node.file)])])])] :
          Entries) →
        p.2 = Node.dir yes → isDigitName p.1 = true → (yes.map Prod.fst).Nodup := by
      intro p yes hp hdir _
      rcases List.mem_cons.mp hp with h1 | h1
      · subst h1
        simp only at hdir
        cases hdir
        decide
      · exact absurd h1 (List.not_mem_nil p)
    have happ := claim_C1.2.2 noFail
      [("2024", Node.dir [("01", Node.dir [("15", Node.dir [("shot.jpg", Node.file)])]),
                          ("02", Node.dir [("20", Node.dir [("shot.jpg", Node.file)])])])]
      hnod
      ("2024", Node.dir [("shot.jpg", Node.file), ("shot_001.jpg", Node.file)])
      [("shot.jpg", Node.file), ("shot_001.jpg", Node.file)]
      (by show _ ∈ [("2024", Node.dir [("shot.jpg", Node.file), ("shot_001.jpg", Node.file)])]
          exact List.mem_singleton_self _)
      rfl (by decide)
    exact happ

/-- Claim C3: migration is idempotent — on a tree with no nested numeric
day directories it performs zero moves and reports zero moves without error
(first conjunct), and a second run on the output of any failure-free run
performs zero moves with zero errors (second conjunct). -/
theorem claim_C3 :
    (∀ es : Entries, noNestedDayDirs es = true →
      (cleanup_photo_structure noFail es).moved = 0 ∧
      (cleanup_photo_structure noFail es).errs = 0 ∧
      summaryLines (cleanup_photo_structure noFail es).moved =
        ["📊 Cleanup Summary:", "   📸 Photos moved: 0"]) ∧
    (∀ es : Entries,
      (cleanup_photo_structure noFail (cleanup_photo_structure noFail es).tree).moved = 0 ∧
      (cleanup_photo_structure noFail (cleanup_photo_structure noFail es).tree).errs = 0) := by
  constructor
  · intro es h
    have hz := countNested_zero_of_noNested es h
    have hsum := cleanup_moved_add_errs noFail es
    have hmv : (cleanup_photo_structure noFail es).moved = 0 := by omega
    refine ⟨hmv, by omega, ?_⟩
    rw [hmv]
    rfl
  · intro es
    have hz := countNested_final_zero es
    have hsum := cleanup_moved_add_errs noFail (cleanup_photo_structure noFail es).tree
    constructor <;> omega

theorem claim_C3_witness :
    noNestedDayDirs [("2024", Node.dir [("a.jpg", Node.file)])] = true ∧
    (cleanup_photo_structure noFail [("2024", Node.dir [("a.jpg", Node.file)])]).moved = 0 ∧
    (cleanup_photo_structure noFail [("2024", Node.dir [("a.jpg", Node.file)])]).errs = 0 ∧
    summaryLines (cleanup_photo_structure noFail
      [("2024", Node.dir [("a.jpg", Node.file)])]).moved =
      ["📊 Cleanup Summary:", "   📸 Photos moved: 0"] := by
  have h := claim_C3.1 [("2024", Node.dir [("a.jpg", Node.file)])] (by decide)
  exact ⟨by decide, h⟩

/-- Claim C2: for every prefix and wall-clock timestamp (with a four-digit
year and a sub-second part below one second), `capture_photo` with
`organize_by_date` true yields
`root/YYYY/{prefix}_{YYYYMMDD}_{HHMMSS_mmm}.jpg`, where `mmm` is the
millisecond count zero-padded to 3 digits and the year renders with exactly
four digits; with `organize_by_date` false the file path is directly under
the root directory. -/
theorem claim_C2 :
    ∀ (root pfx : String) (now : Timestamp) (sz : Nat),
    now.micro < 1000000 → 1000 ≤ now.year → now.year ≤ 9999 →
    ((capture_photo true root pfx true now (CamResult.created sz)).result =
      some (root ++ "/" ++ natToStr now.year ++ "/" ++ pfx ++ "_"
        ++ natToStr now.year ++ padNat 2 now.month ++ padNat 2 now.day ++ "_"
        ++ padNat 2 now.hour ++ padNat 2 now.minute ++ padNat 2 now.second ++ "_"
        ++ padNat 3 (now.micro / 1000) ++ ".jpg")) ∧
    ((natToStr now.year).length = 4) ∧
    ((capture_photo true root pfx false now (CamResult.created sz)).result =
      some (root ++ "/" ++ pfx ++ "_"
        ++ natToStr now.year ++ padNat 2 now.month ++ padNat 2 now.day ++ "_"
        ++ padNat 2 now.hour ++ padNat 2 now.minute ++ padNat 2 now.second ++ "_"
        ++ padNat 3 (now.micro / 1000) ++ ".jpg")) := by
  intro root pfx now sz hmi hy1 hy2
  refine ⟨?_, natToStr_len4 now.year hy1 hy2, ?_⟩
  · show some _ = some _
    apply congrArg some
    rw [hmsMilliStr_eq now hmi]
    apply String.ext
    simp [dateStr, string_data_append, List.append_assoc]
  · show some _ = some _
    apply congrArg some
    rw [hmsMilliStr_eq now hmi]
    apply String.ext
    simp [dateStr, string_data_append, List.append_assoc]

theorem claim_C2_witness :
    (capture_photo true "photos" "traffic_camera" true
      ⟨2024, 3, 1, 10, 15, 30, 123000⟩ (CamResult.created 5)).result =
      some "photos/2024/traffic_camera_20240301_101530_123.jpg" ∧
    (capture_photo true "photos" "traffic_camera" false
      ⟨2024, 3, 1, 10, 15, 30, 123000⟩ (CamResult.created 5)).result =
      some "photos/traffic_camera_20240301_101530_123.jpg" := by
  have h := claim_C2 "photos" "traffic_camera" ⟨2024, 3, 1, 10, 15, 30, 123000⟩ 5
    (by decide) (by decide) (by decide)
  exact ⟨h.1, h.2.2⟩

/-- Claim C4 (corrected): a failure to move one file is caught for that file
alone and does not abort the traversal — the moved count equals the number
of matching files whose moves succeed and the caught-error count equals the
number whose moves fail, so together they account for every matching
file — but the final summary reports only the moved count (see the
counterexample). -/
theorem claim_C4 :
    ∀ (fail : String → Bool) (es : Entries),
    (cleanup_photo_structure fail es).moved = rootOkCnt fail es ∧
    (cleanup_photo_structure fail es).errs = rootErrCnt fail es ∧
    (cleanup_photo_structure fail es).moved + (cleanup_photo_structure fail es).errs =
      countNested es ∧
    summaryLines (cleanup_photo_structure fail es).moved =
      ["📊 Cleanup Summary:",
       "   📸 Photos moved: " ++ natToStr (rootOkCnt fail es)] := by
  intro fail es
  refine ⟨cleanup_moved fail es, cleanup_errs fail es, cleanup_moved_add_errs fail es, ?_⟩
  rw [summaryLines, cleanup_moved fail es]

/-- Counterexample to claim C4 as stated: two runs with different error
counts (one versus zero) produce identical final summaries, so the summary
cannot be reporting an error count alongside the moved count. -/
theorem claim_C4_cex :
    (cleanup_photo_structure (fun p => p == "2024/01/15/a.jpg")
      [("2024", Node.dir [("01", Node.dir [("15", Node.dir
        [("a.jpg", Node.file), ("b.jpg", Node.file)])])])]).errs = 1 ∧
    (cleanup_photo_structure noFail
      [("2024", Node.dir [("01", Node.dir [("15", Node.dir
        [("b.jpg", Node.file)])])])]).errs = 0 ∧
    summaryLines (cleanup_photo_structure (fun p => p == "2024/01/15/a.jpg")
      [("2024", Node.dir [("01", Node.dir [("15", Node.dir
        [("a.jpg", Node.file), ("b.jpg", Node.file)])])])]).moved =
    summaryLines (cleanup_photo_structure noFail
      [("2024", Node.dir [("01", Node.dir [("15", Node.dir
        [("b.jpg", Node.file)])])])]).moved :=
  ⟨rfl, rfl, rfl⟩

/-- Claim C5 (corrected): migration never removes or renames a root-level
entry, so year directories survive even when emptied (first conjunct), and
after migration no numeric month directory under a numeric year directory is
empty and no directory inside such a month directory is empty (second
conjunct); however, the pruning removes every empty directory inside a
numeric month directory whatever its name, not only numeric day directories
(see the counterexample). -/
theorem claim_C5 :
    ∀ (fail : String → Bool) (es : Entries),
    ((cleanup_photo_structure fail es).tree.map Prod.fst = es.map Prod.fst) ∧
    (∀ (y : String) (yes : Entries),
      (y, Node.dir yes) ∈ (cleanup_photo_structure fail es).tree →
      isDigitName y = true →
      ∀ (m : String) (mes : Entries), (m, Node.dir mes) ∈ yes → isDigitName m = true →
      mes ≠ [] ∧ ∀ (d : String) (ds : Entries), (d, Node.dir ds) ∈ mes → ds ≠ []) :=
  fun fail es => ⟨cleanup_names fail es, no_empty_dirs_final fail es⟩

theorem claim_C5_witness :
    ((cleanup_photo_structure noFail
      [("2024", Node.dir [("01", Node.dir [("15", Node.dir [("shot.jpg", Node.file)])]),
                          ("notes.txt", Node.file)])]).tree.map Prod.fst =
      ([("2024", Node.dir [("01", Node.dir [("15", Node.dir [("shot.jpg", Node.file)])]),
                           ("notes.txt", Node.file)])] : Entries).map Prod.fst) ∧
    ([("keep.txt", Node.file)] : Entries) ≠ [] := by
  constructor
  · exact (claim_C5 noFail _).1
  · have h := (claim_C5 noFail
      [("2024", Node.dir [("01", Node.dir [("misc", Node.dir []),
                                           ("keep.txt", Node.file)])])]).2
      "2024" [("01", Node.dir [("keep.txt", Node.file)])]
      (by show _ ∈ [("2024", Node.dir [("01", Node.dir [("keep.txt", Node.file)])])]
          exact List.mem_singleton_self _)
      (by decide)
      "01" [("keep.txt", Node.file)] (List.mem_singleton_self _) (by decide)
    exact h.1

/-- Counterexample to claim C5 as stated: `misc`, an empty directory with a
non-numeric name inside a numeric month directory, is removed by the pruning
phase even though it is not a numeric day directory. -/
theorem claim_C5_cex :
    (cleanup_photo_structure noFail
      [("2024", Node.dir [("01", Node.dir [("misc", Node.dir []),
                                           ("keep.txt", Node.file)])])]).tree =
      [("2024", Node.dir [("01", Node.dir [("keep.txt", Node.file)])])] := rfl

/-- Claim C6 (corrected): after invoking the camera collaborator the capture
verifies only that the file exists — if the file was not created, or the
camera call raised, `capture_photo` returns no path; but when the file
exists it returns the path whatever the file size, with no non-empty
check (see the counterexample with a zero-byte file). -/
theorem claim_C6 :
    ∀ (photoDir pfx : String) (organize : Bool) (now : Timestamp),
    ((capture_photo true photoDir pfx organize now CamResult.notCreated).result = none) ∧
    ((capture_photo true photoDir pfx organize now CamResult.raised).result = none) ∧
    (∀ sz : Nat, (capture_photo true photoDir pfx organize now
        (CamResult.created sz)).result =
      some ((if organize then photoDir ++ "/" ++ natToStr now.year else photoDir) ++ "/" ++
        (pfx ++ "_" ++ dateStr now ++ "_" ++ hmsMilliStr now ++ ".jpg"))) := by
  intro photoDir pfx organize now
  refine ⟨rfl, rfl, fun sz => rfl⟩

/-- Counterexample to claim C6 as stated: a zero-byte (empty) file passes
the check and the path is returned, although the claim requires the capture
to report failure when the file is empty. -/
theorem claim_C6_cex :
    (capture_photo true "photos" "traffic_camera" true
      ⟨2024, 3, 1, 10, 15, 30, 123000⟩ (CamResult.created 0)).result =
      some "photos/2024/traffic_camera_20240301_101530_123.jpg" := rfl

/-- Claim C7 (corrected): in a failure-free migration every file of a
reached day directory whose name ends in the lowercase extension `.jpg` is
moved out into the year directory — the moved count equals the number of
matching nested files and none remain nested afterwards — but the glob is
case-sensitive: `shot.jpg` matches while `shot.JPG` does not (and is left
in place, see the counterexample). -/
theorem claim_C7 :
    (∀ es : Entries,
      (cleanup_photo_structure noFail es).moved = countNested es ∧
      countNested (cleanup_photo_structure noFail es).tree = 0) ∧
    isJpgMatch "shot.jpg" = true ∧ isJpgMatch "shot.JPG" = false := by
  refine ⟨?_, by decide, by decide⟩
  intro es
  constructor
  · have h1 := cleanup_moved_add_errs noFail es
    have h2 := cleanup_errs noFail es
    have h3 := rootErrCnt_noFail es
    omega
  · exact countNested_final_zero es

/-- Counterexample to claim C7 as stated: a file named `shot.JPG` (uppercase
extension) is not matched by the glob — the migration moves nothing and the
file stays in its day directory, although the claim requires it to be moved
into the year directory. -/
theorem claim_C7_cex :
    (cleanup_photo_structure noFail
      [("2024", Node.dir [("01", Node.dir [("15", Node.dir
        [("shot.JPG", Node.file)])])])]).tree =
      [("2024", Node.dir [("01", Node.dir [("15", Node.dir
        [("shot.JPG", Node.file)])])])] ∧
    (cleanup_photo_structure noFail
      [("2024", Node.dir [("01", Node.dir [("15", Node.dir
        [("shot.JPG", Node.file)])])])]).moved = 0 :=
  ⟨rfl, rfl⟩

/-- Claim C8 (corrected): the move phase traverses only numeric directories
at the year, month and day levels — exactly the matching files in numeric
day chains are attempted, without error (first conjunct) — and non-numeric
or non-directory entries at the root and month levels are skipped and
survive unchanged (second and third conjuncts); however, an empty directory
at the day level is removed by the pruning phase even when its name is not
numeric (see the counterexample). -/
theorem claim_C8 :
    (∀ (fail : String → Bool) (es : Entries),
      (cleanup_photo_structure fail es).moved + (cleanup_photo_structure fail es).errs =
        countNested es) ∧
    (∀ (fail : String → Bool) (es : Entries) (e : String × Node), e ∈ es →
      (match e.2 with
       | Node.file => True
       | Node.dir _ => isDigitName e.1 = false) →
      e ∈ (cleanup_photo_structure fail es).tree) ∧
    (∀ (fail : String → Bool) (es : Entries) (y : String) (yes : Entries),
      (y, Node.dir yes) ∈ es → isDigitName y = true →
      ∀ e ∈ yes,
      (match e.2 with
       | Node.file => True
       | Node.dir _ => isDigitName e.1 = false) →
      ∃ yes2, (y, Node.dir yes2) ∈ (cleanup_photo_structure fail es).tree ∧ e ∈ yes2) :=
  ⟨cleanup_moved_add_errs, root_entry_keep,
   fun fail es y yes hyy hdig e he hcond => month_entry_keep fail es y yes hyy hdig e he hcond⟩

theorem claim_C8_witness :
    (cleanup_photo_structure noFail
      [("readme.txt", Node.file), ("2024", Node.dir [("notes", Node.file)])]).moved +
      (cleanup_photo_structure noFail
        [("readme.txt", Node.file), ("2024", Node.dir [("notes", Node.file)])]).errs =
      countNested [("readme.txt", Node.file), ("2024", Node.dir [("notes", Node.file)])] ∧
    ("readme.txt", Node.file) ∈ (cleanup_photo_structure noFail
      [("readme.txt", Node.file), ("2024", Node.dir [("notes", Node.file)])]).tree ∧
    ∃ yes2, ("2024", Node.dir yes2) ∈ (cleanup_photo_structure noFail
      [("readme.txt", Node.file), ("2024", Node.dir [("notes", Node.file)])]).tree ∧
      ("notes", Node.file) ∈ yes2 := by
  refine ⟨claim_C8.1 noFail _, ?_, ?_⟩
  · exact claim_C8.2.1 noFail _ ("readme.txt", Node.file) (List.mem_cons_self _ _) trivial
  · exact claim_C8.2.2 noFail _ "2024" [("notes", Node.file)]
      (List.mem_cons_of_mem _ (List.mem_singleton_self _)) (by decide)
      ("notes", Node.file) (List.mem_singleton_self _) trivial

/-- Counterexample to claim C8 as stated: the non-numeric entry `misc` (an
empty directory at the day level) is removed by the migration, so it is not
left unmodified, and the emptied numeric month directory `01` disappears
with it. -/
theorem claim_C8_cex :
    (cleanup_photo_structure noFail
      [("2024", Node.dir [("01", Node.dir [("misc", Node.dir [])])])]).tree =
      [("2024", Node.dir [])] := rfl

/-- Claim C9: the capture command-line entry point accepts an optional
quality-mode argument with values `production`, `high_quality` and `fast`,
and selects `production` when no argument is supplied. -/
theorem claim_C9 :
    parseQualityMode [] = "production" ∧
    ∀ m, m ∈ ["production", "high_quality", "fast"] → parseQualityMode [m] = m := by
  refine ⟨rfl, ?_⟩
  intro m hm
  fin_cases hm <;> rfl

theorem claim_C9_witness :
    parseQualityMode [] = "production" ∧ parseQualityMode ["fast"] = "fast" :=
  ⟨claim_C9.1, claim_C9.2 "fast" (by simp)⟩

/-- Claim C10: when the controller is not initialized, `capture_photo`
returns `none` and `capture_burst` returns the empty list; in both cases the
camera collaborator is never invoked, no directory is created and no file is
written. -/
theorem claim_C10 :
    ∀ (photoDir pfx : String) (organize : Bool) (now : Timestamp) (cam : CamResult)
      (count : Nat) (env : Nat → Timestamp × CamResult),
    capture_photo false photoDir pfx organize now cam =
      ⟨none, false, []⟩ ∧
    capture_burst false photoDir pfx count env = ([], 0) := by
  intro photoDir pfx organize now cam count env
  exact ⟨rfl, rfl⟩

end TC
